import Mathlib

/-!
Verification development for the page-parallel PDF extraction pipeline
(`ocr.py`): the document splitter, extraction client, page worker, parallel
dispatcher, result persister and output-directory namer are shallowly
embedded as Lean functions, and the behavioural properties of the design
are settled against this embedding.

Modelling conventions:
* Python dicts are ordered association lists (insertion order preserved).
* JSON numbers are modelled as integers; IEEE-754 floating-point payloads
  are outside the embedding.
* The file system is a pair of membership functions (directories, files);
  temporary-file storage is a membership function on paths.
* Exceptions are `Except` values; `except Exception` handlers catch every
  error of the modelled error type (`BaseException` escapes such as
  `KeyboardInterrupt` are outside the embedding).
* Wall-clock readings (`datetime.now()`) are inputs of the run environment.
-/

namespace OcrSpec

/-- Characters that the Lean lexer makes awkward to write literally. -/
def quoteChar : Char := Char.ofNat 34

def backslashChar : Char := Char.ofNat 92

def lbraceChar : Char := Char.ofNat 123

def rbraceChar : Char := Char.ofNat 125

def squoteChar : Char := Char.ofNat 39

/-- Decimal digit character: `digitChar d` is the character for `d < 10`. -/
def digitChar (d : Nat) : Char := Char.ofNat (48 + d)

/-- Accumulator form of decimal printing (most significant digit first);
the recursion budget `fuel` exceeds the number of digits whenever
`n < fuel`. -/
def natToCharsCore : Nat → Nat → List Char → List Char
  | 0, _, acc => acc
  | fuel + 1, n, acc =>
    if n < 10 then digitChar n :: acc
    else natToCharsCore fuel (n / 10) (digitChar (n % 10) :: acc)

/-- Decimal representation of a natural number, as Python `str(n)` prints it. -/
def natToChars (n : Nat) : List Char := natToCharsCore (n + 1) n []

/-- Decimal representation of an integer, as Python `str(i)` prints it. -/
def intToChars (i : Int) : List Char :=
  if i < 0 then Char.ofNat 45 :: natToChars i.natAbs else natToChars i.toNat

/-- `str(n)` for a natural number, as a Lean `String`. -/
def natToStr (n : Nat) : String := ⟨natToChars n⟩

/-- JSON values as exchanged with the remote extraction service and written
to `result.json`.  Objects keep insertion order, as Python dicts do; numbers
are modelled as integers. -/
inductive Json : Type where
  | null : Json
  | bool (b : Bool) : Json
  | num (n : Int) : Json
  | str (s : String) : Json
  | arr (items : List Json) : Json
  | obj (members : List (String × Json)) : Json

/-- A Python dict with string keys, the shape handed around as a page result. -/
abbrev Obj := List (String × Json)

/-- Python `k in d` for a dict: key membership. -/
def hasKeyO (k : String) (o : Obj) : Bool := o.any (fun kv => kv.1 == k)

/-- Python `d.get(k, default)`. -/
def getD (o : Obj) (k : String) (dflt : Json) : Json :=
  match o.find? (fun kv => kv.1 == k) with
  | some kv => kv.2
  | none => dflt

/-- Python `d[k]`: the value at `k`, if the key is present. -/
def getKey? (o : Obj) (k : String) : Option Json :=
  (o.find? (fun kv => kv.1 == k)).map (·.2)

/-! ## Serialization: `json.dump(value, f, indent=2)` (default `ensure_ascii`) -/

/-- Indentation: `n` spaces. -/
def padding (n : Nat) : List Char := List.replicate n ' '

/-- Lowercase hexadecimal digit character, for `d < 16`. -/
def hexDigitChar (d : Nat) : Char :=
  if d < 10 then digitChar d else Char.ofNat (87 + d)

/-- Four-digit lowercase hex rendering of `n < 0x10000`, as in `\uXXXX`. -/
def hex4 (n : Nat) : List Char :=
  [hexDigitChar (n / 4096 % 16), hexDigitChar (n / 256 % 16),
   hexDigitChar (n / 16 % 16), hexDigitChar (n % 16)]

/-- The expansion of one character inside a JSON string literal, following
Python's `json` encoder with `ensure_ascii=True`: two-character shortcuts for
the classic escapes, printable ASCII verbatim, `\uXXXX` for everything else,
with astral characters as surrogate pairs. -/
def escapeChar (c : Char) : List Char :=
  if c = quoteChar then [backslashChar, quoteChar]
  else if c = backslashChar then [backslashChar, backslashChar]
  else if c = '\n' then [backslashChar, 'n']
  else if c = '\t' then [backslashChar, 't']
  else if c = '\r' then [backslashChar, 'r']
  else if c.toNat = 8 then [backslashChar, 'b']
  else if c.toNat = 12 then [backslashChar, 'f']
  else if 32 ≤ c.toNat ∧ c.toNat ≤ 126 then [c]
  else if c.toNat < 65536 then backslashChar :: 'u' :: hex4 c.toNat
  else
    backslashChar :: 'u' :: hex4 (55296 + (c.toNat - 65536) / 1024) ++
      backslashChar :: 'u' :: hex4 (56320 + (c.toNat - 65536) % 1024)

/-- Escape every character of a string body. -/
def escapeString : List Char → List Char
  | [] => []
  | c :: cs => escapeChar c ++ escapeString cs

/-- A JSON string literal: quote, escaped body, quote. -/
def dumpString (s : String) : List Char :=
  quoteChar :: escapeString s.data ++ [quoteChar]

mutual

/-- Serialized form of one JSON value at nesting level `lvl`
(`json.dump` with `indent=2`): containers break across lines, members
indented two spaces per level. -/
def dumpVal : Json → Nat → List Char
  | .null, _ => ['n', 'u', 'l', 'l']
  | .bool true, _ => ['t', 'r', 'u', 'e']
  | .bool false, _ => ['f', 'a', 'l', 's', 'e']
  | .num n, _ => intToChars n
  | .str s, _ => dumpString s
  | .arr [], _ => ['[', ']']
  | .arr (x :: xs), lvl =>
      '[' :: '\n' :: padding (2 * (lvl + 1)) ++ dumpVal x (lvl + 1) ++
        dumpSepItems xs (lvl + 1) ++ '\n' :: padding (2 * lvl) ++ [']']
  | .obj [], _ => [lbraceChar, rbraceChar]
  | .obj ((k, v) :: ms), lvl =>
      lbraceChar :: '\n' :: padding (2 * (lvl + 1)) ++ dumpString k ++
        ':' :: ' ' :: dumpVal v (lvl + 1) ++ dumpSepMembers ms (lvl + 1) ++
        '\n' :: padding (2 * lvl) ++ [rbraceChar]

/-- The remaining array items, each preceded by `",\n"` and indentation. -/
def dumpSepItems : List Json → Nat → List Char
  | [], _ => []
  | x :: xs, lvl =>
      ',' :: '\n' :: padding (2 * lvl) ++ dumpVal x lvl ++ dumpSepItems xs lvl

/-- The remaining object members, each preceded by `",\n"` and
indentation; a member is the serialized key, `": "`, and the value. -/
def dumpSepMembers : List (String × Json) → Nat → List Char
  | [], _ => []
  | (k, v) :: ms, lvl =>
      ',' :: '\n' :: padding (2 * lvl) ++ dumpString k ++
        ':' :: ' ' :: dumpVal v lvl ++ dumpSepMembers ms lvl

end

/-- Top-level serialization of a value, as written into `result.json` and
`combined_results.json`. -/
def jsonDump (v : Json) : List Char := dumpVal v 0

/-! ## Python `str()` / `repr()` of a JSON-shaped value

Used by the f-strings in the summary writers.  Exact for the scalar values
(`str`, `int`, `bool`, `None`) that the formatted fields hold; container
reprs are rendered with unescaped single-quoted strings, which matches
CPython for quote-free printable contents. -/

mutual

def pyRepr : Json → List Char
  | .null => "None".data
  | .bool true => "True".data
  | .bool false => "False".data
  | .num n => intToChars n
  | .str s => squoteChar :: s.data ++ [squoteChar]
  | .arr [] => "[]".data
  | .arr (x :: xs) => '[' :: pyRepr x ++ pyReprSepItems xs ++ [']']
  | .obj [] => [lbraceChar, rbraceChar]
  | .obj ((k, v) :: ms) =>
      lbraceChar :: (squoteChar :: k.data ++ [squoteChar]) ++ ':' :: ' ' ::
        pyRepr v ++ pyReprSepMembers ms ++ [rbraceChar]

def pyReprSepItems : List Json → List Char
  | [] => []
  | x :: xs => ',' :: ' ' :: pyRepr x ++ pyReprSepItems xs

def pyReprSepMembers : List (String × Json) → List Char
  | [] => []
  | (k, v) :: ms =>
      ',' :: ' ' :: (squoteChar :: k.data ++ [squoteChar]) ++ ':' :: ' ' ::
        pyRepr v ++ pyReprSepMembers ms

end

/-- Python `str(v)`: strings verbatim, everything else via `repr`. -/
def pyStr : Json → List Char
  | .str s => s.data
  | v => pyRepr v

/-- Python `len(v)`: defined for sized values, a `TypeError` otherwise. -/
def pyLen : Json → Except Unit Nat
  | .arr xs => .ok xs.length
  | .str s => .ok s.data.length
  | .obj ms => .ok ms.length
  | _ => .error ()

/-- Python iteration over a value: list elements, string characters
(as one-character strings), dict keys; a `TypeError` otherwise. -/
def pyIter : Json → Except Unit (List Json)
  | .arr xs => .ok xs
  | .str s => .ok (s.data.map (fun c => Json.str ⟨[c]⟩))
  | .obj ms => .ok (ms.map (fun kv => Json.str kv.1))
  | _ => .error ()

/-! ## File-system model -/

/-- The durable store: which directories exist, and the text held by each
file.  Paths are plain strings. -/
@[ext]
structure FS where
  dirs : String → Bool
  files : String → Option (List Char)

/-- Index of the last occurrence of `c`, as Python `s.rfind(c)`. -/
def rfindChar (c : Char) : List Char → Option Nat
  | [] => none
  | x :: xs =>
    match rfindChar c xs with
    | some i => some (i + 1)
    | none => if x = c then some 0 else none

/-- The parent directory of a path, `"."` for a bare name. -/
def parentDir (p : String) : String :=
  match rfindChar '/' p.data with
  | some i => ⟨p.data.take i⟩
  | none => "."

/-- `Path(p).mkdir(exist_ok=True)`: fails when the parent is missing,
succeeds without effect when the directory already exists. -/
def FS.mkdirExistOk (fs : FS) (p : String) : Except Unit FS :=
  if parentDir p ≠ "." ∧ fs.dirs (parentDir p) = false then .error ()
  else if fs.dirs p then .ok fs
  else .ok { fs with dirs := fun q => if q = p then true else fs.dirs q }

/-- `Path(p).mkdir(parents=True, exist_ok=True)` for the two-segment output
path: creates the ancestor and the directory, never fails. -/
def FS.mkdirParents (fs : FS) (p : String) (ancestor : String) : FS :=
  { fs with dirs := fun q => if q = p then true else
      if q = ancestor then true else fs.dirs q }

/-- `open(p, "w")` followed by writes: replaces the file's content. -/
def FS.write (fs : FS) (p : String) (content : List Char) : FS :=
  { fs with files := fun q => if q = p then some content else fs.files q }

/-- Temporary-file storage, a membership function on paths. -/
abbrev TempFS := String → Bool

/-- Create (`true`) or delete (`false`) the temporary file at `p`;
deleting an absent file is the no-op the source's bare `except: pass`
around `os.unlink` produces. -/
def setTemp (fs : TempFS) (p : String) (b : Bool) : TempFS :=
  fun q => if q = p then b else fs q

/-! ## Result Persister: `save_page_result` -/

/-- Zero-padded three-digit page number, Python `f"{n:03d}"`. -/
def pad3 (n : Nat) : String :=
  if n < 10 then "00" ++ natToStr n
  else if n < 100 then "0" ++ natToStr n
  else natToStr n

/-- The page's numbered subdirectory. -/
def pageDirPath (outputDir : String) (n : Nat) : String :=
  outputDir ++ "/" ++ pad3 n

/-- One product block of `summary.txt`.  `product.get(...)` requires a
dict; any other element raises (`AttributeError`). -/
def formatProduct (i : Nat) (p : Json) : Except Unit (List Char) :=
  match p with
  | .obj mp =>
      .ok (("Product " ++ natToStr i ++ ":\n").data ++
        "  ID: ".data ++ pyStr (getD mp "id" (Json.str "N/A")) ++ ['\n'] ++
        "  Name: ".data ++ pyStr (getD mp "name" (Json.str "N/A")) ++ ['\n'] ++
        "  Size: ".data ++ pyStr (getD mp "size" (Json.str "N/A")) ++ ['\n'] ++
        "  Price: $".data ++ pyStr (getD mp "price" (Json.str "N/A")) ++ ['\n'] ++
        "  Flower Data: ".data ++
          pyStr (getD mp "flower-data" (Json.str "N/A")) ++ ['\n'] ++
        "  Foliage Data: ".data ++
          pyStr (getD mp "foliage-data" (Json.str "N/A")) ++ ['\n'] ++
        "  Dimensions: ".data ++
          pyStr (getD mp "dimensions" (Json.str "N/A")) ++ ['\n'] ++
        "  Construction Material: ".data ++
          pyStr (getD mp "construction-material" (Json.str "N/A")) ++ "\n\n".data)
  | _ => .error ()

/-- All product blocks, enumerated from `i`. -/
def formatProducts (i : Nat) : List Json → Except Unit (List Char)
  | [] => .ok []
  | p :: ps => do
      let b ← formatProduct i p
      let rest ← formatProducts (i + 1) ps
      .ok (b ++ rest)

/-- The body of a page's `summary.txt` after the header: the `ERROR:` line
when the result carries an `"error"` key, otherwise the product count and
the product blocks (`len`/iteration of `result.get("products", [])`). -/
def summaryBody (result : Obj) : Except Unit (List Char) :=
  if hasKeyO "error" result then
    .ok ("ERROR: ".data ++ pyStr (getD result "error" .null) ++ ['\n'])
  else do
    let products := getD result "products" (Json.arr [])
    let n ← pyLen products
    let elems ← pyIter products
    let blocks ← formatProducts 1 elems
    .ok (("Number of products found: " ++ natToStr n ++ "\n\n").data ++ blocks)

/-- The full text of a page's `summary.txt`. -/
def pageSummaryText (pageNum : Nat) (result : Obj) : Except Unit (List Char) := do
  let body ← summaryBody result
  .ok (("Page " ++ natToStr pageNum ++ " Processing Results\n").data ++
    List.replicate 40 '=' ++ "\n\n".data ++ body)

/-- `save_page_result`: make the page's zero-padded subdirectory
(`exist_ok=True`), write `result.json`, write `summary.txt`.  A raising
save is modelled as leaving the store unchanged; the claims below only
inspect non-raising saves. -/
def save_page_result (fs : FS) (outputDir : String) (pageNum : Nat)
    (result : Obj) : Except Unit FS := do
  let pageDir := pageDirPath outputDir pageNum
  let fs₁ ← fs.mkdirExistOk pageDir
  let fs₂ := fs₁.write (pageDir ++ "/result.json") (jsonDump (Json.obj result))
  let body ← pageSummaryText pageNum result
  .ok (fs₂.write (pageDir ++ "/summary.txt") body)

/-! ## Output Directory Namer: `create_output_directory` -/

/-- CPython `str.isalnum`, restricted to code points below U+0100 where it
is exact (ASCII alphanumerics plus the Latin-1 alphanumerics `ª ² ³ µ ¹ º
¼ ½ ¾` and the letters `À`..`ÿ` less `×`/`÷`); higher code points are
mapped to `false`, a narrowing irrelevant to the claims settled with it. -/
def pyIsAlnum (c : Char) : Bool :=
  (48 ≤ c.toNat && c.toNat ≤ 57) || (65 ≤ c.toNat && c.toNat ≤ 90) ||
  (97 ≤ c.toNat && c.toNat ≤ 122) ||
  (c.toNat = 170) || (c.toNat = 178) || (c.toNat = 179) || (c.toNat = 181) ||
  (c.toNat = 185) || (c.toNat = 186) || (188 ≤ c.toNat && c.toNat ≤ 190) ||
  (192 ≤ c.toNat && c.toNat ≤ 255 && c.toNat ≠ 215 && c.toNat ≠ 247)

/-- One character of the sanitizer:
`c if c.isalnum() or c in "._-" else "_"`. -/
def sanitizeChar (c : Char) : Char :=
  if pyIsAlnum c || c = '.' || c = '_' || c = '-' then c else '_'

/-- The directory-name sanitizer applied to a filename stem. -/
def safeFilename (s : String) : String := ⟨s.data.map sanitizeChar⟩

/-- `Path(name).stem`: the name with its last extension removed, when the
last dot is neither leading nor trailing. -/
def stemOf (s : String) : String :=
  match rfindChar '.' s.data with
  | some i => if 0 < i ∧ i < s.data.length - 1 then ⟨s.data.take i⟩ else s
  | none => s

/-- `os.path.basename`. -/
def basenameOf (p : String) : String :=
  match rfindChar '/' p.data with
  | some i => ⟨p.data.drop (i + 1)⟩
  | none => p

/-- `create_output_directory`: derive `output/<timestamp>[-<sanitized stem>]`
and create it together with its parent (`parents=True, exist_ok=True`). -/
def create_output_directory (timestamp : String) (pdfFilename : Option String)
    (fs : FS) : String × FS :=
  let dir := match pdfFilename with
    | some name => "output/" ++ timestamp ++ "-" ++ safeFilename (stemOf name)
    | none => "output/" ++ timestamp
  (dir, fs.mkdirParents dir "output")

/-! ## Document Splitter: `split_pdf_by_pages` -/

/-- Where an iteration of the split loop can raise: `PdfWriter.add_page`
(a parse error on that page) or the write of the page file. -/
inductive PagePoint where
  | add : PagePoint
  | writeOut : PagePoint
deriving DecidableEq

/-- The failure oracle for one split call: `PdfReader` construction itself,
or a given point of a given (0-based) loop iteration. -/
inductive SplitSpot where
  | reader : SplitSpot
  | page (k : Nat) (pt : PagePoint) : SplitSpot
deriving DecidableEq

/-- A splitter environment: whether the source exists, its page count, and
the failure oracle (`none` for a clean run). -/
structure SplitEnv where
  pdfExists : Bool
  totalPages : Nat
  failAt : Option SplitSpot

inductive SplitErr where
  | notFound : SplitErr
  | splitFailure : SplitErr
deriving DecidableEq

/-- The fresh temporary path `NamedTemporaryFile` hands out at iteration `i`. -/
def tempName (i : Nat) : String := "/tmp/page-" ++ natToStr i ++ ".pdf"

/-- The `except` block's cleanup: unlink every recorded page file. -/
def cleanupTemps (pages : List (Nat × String)) (fs : TempFS) : TempFS :=
  pages.foldl (fun acc pg => setTemp acc pg.2 false) fs

/-- The split loop from iteration `i` with `r` iterations left: create the
iteration's temporary file, then either the oracle fires at this iteration
(cleanup of the recorded pages, wrapped failure) or the page is recorded. -/
def splitGo (failAt : Option SplitSpot) :
    Nat → Nat → List (Nat × String) → TempFS →
      Except SplitErr (List (Nat × String)) × TempFS
  | _, 0, acc, fs => (.ok acc, fs)
  | i, r + 1, acc, fs =>
    let fs₁ := setTemp fs (tempName i) true
    if failAt = some (.page i .add) ∨ failAt = some (.page i .writeOut) then
      (.error .splitFailure, cleanupTemps acc fs₁)
    else
      splitGo failAt (i + 1) r (acc ++ [(i + 1, tempName i)]) fs₁

/-- `split_pdf_by_pages`: not-found check, reader construction, then the
page loop; loop failures are wrapped as `splitFailure` after the cleanup. -/
def split_pdf_by_pages (env : SplitEnv) (tmp : TempFS) :
    Except SplitErr (List (Nat × String)) × TempFS :=
  if env.pdfExists = false then (.error .notFound, tmp)
  else if env.failAt = some .reader then (.error .splitFailure, tmp)
  else splitGo env.failAt 0 env.totalPages [] tmp

/-! ## Extraction Client: `process_document` -/

/-- The remote call's observable outcome: whether `raise_for_status`
passes, and the decoded body (`response.json()`), `.error` when the body
is not valid JSON. -/
structure HttpResponse where
  statusOk : Bool
  body : Except Unit Json

/-- The error kinds `process_document` can raise: `FileNotFoundError`,
re-raised `requests.RequestException` (which also covers a body-decode
failure, `requests`' `JSONDecodeError` being a `RequestException`),
`ValueError` from a missing envelope key, and an uncaught `TypeError`
from subscripting a non-dict. -/
inductive PdErr where
  | fileNotFound : PdErr
  | requestException : PdErr
  | valueError : PdErr
  | typeError : PdErr
deriving DecidableEq

/-- Python `j[k]` on a JSON value: dict lookup (`KeyError` is caught and
re-raised as `ValueError`), `TypeError` on a non-dict. -/
def getItem (j : Json) (k : String) : Except PdErr Json :=
  match j with
  | .obj ms =>
      match getKey? ms k with
      | some v => .ok v
      | none => .error .valueError
  | _ => .error .typeError

/-- `process_document`: existence check, single POST, `raise_for_status`,
decode, then unwrap `body["data"]["extracted_schema"]` and return it —
with no validation of the extracted value itself. -/
def process_document (pdfExists : Bool) (resp : HttpResponse) :
    Except PdErr Json :=
  if pdfExists = false then .error .fileNotFound
  else if resp.statusOk = false then .error .requestException
  else
    match resp.body with
    | .error _ => .error .requestException
    | .ok b => do
        let d ← getItem b "data"
        getItem d "extracted_schema"

/-! ## Page Worker: `process_page_parallel` -/

/-- A client behaviour: per page number, the dict `process_document`
returns, or the message of the exception it raises.  Success payloads are
dicts, the shape `extracted_schema` has under the schema contract. -/
abbrev Client := Nat → Except String Obj

/-- `process_page_parallel`: run the client inside `try/except Exception`,
capture a failure as `{"error": str(e)}`, and unlink the page's temporary
file in the `finally` block on both paths. -/
def process_page_parallel (client : Client) (tmp : TempFS)
    (pageInfo : Nat × String) : (Nat × Obj) × TempFS :=
  let result : Obj :=
    match client pageInfo.1 with
    | .ok r => r
    | .error e => [("error", Json.str e)]
  ((pageInfo.1, result), setTemp tmp pageInfo.2 false)

/-! ## Parallel Dispatcher: `process_pdf_by_pages` -/

/-- `results[page_num] = result`: ordered-dict assignment. -/
def setResult : List (Nat × Obj) → Nat → Obj → List (Nat × Obj)
  | [], p, r => [(p, r)]
  | (q, s) :: t, p, r =>
      if q = p then (p, r) :: t else (q, s) :: setResult t p r

/-- The stored result for a page, `[]` when absent. -/
def getResultD (results : List (Nat × Obj)) (p : Nat) : Obj :=
  match results.find? (fun pr => pr.1 == p) with
  | some pr => pr.2
  | none => []

def sortedInsert (n : Nat) : List Nat → List Nat
  | [] => [n]
  | m :: ms => if n ≤ m then n :: m :: ms else m :: sortedInsert n ms

/-- Python `sorted` on the results' keys. -/
def sortNats (l : List Nat) : List Nat := l.foldr sortedInsert []

/-- One per-page line of `processing_summary.txt`. -/
def pageLine (p : Nat) (r : Obj) : Except Unit (List Char) :=
  if hasKeyO "error" r then
    .ok (("Page " ++ natToStr p ++ ": ERROR - ").data ++
      pyStr (getD r "error" .null) ++ ['\n'])
  else do
    let n ← pyLen (getD r "products" (.arr []))
    .ok (("Page " ++ natToStr p ++ ": SUCCESS - " ++ natToStr n ++
      " products found").data ++ ['\n'])

/-- The per-page lines, in sorted key order. -/
def pageLines (results : List (Nat × Obj)) : List Nat → Except Unit (List Char)
  | [] => .ok []
  | p :: ps => do
      let l ← pageLine p (getResultD results p)
      let rest ← pageLines results ps
      .ok (l ++ rest)

/-- The full text of `processing_summary.txt`. -/
def runSummaryText (pdfPath : String) (total succ fail : Nat)
    (doneAt : String) (results : List (Nat × Obj)) :
    Except Unit (List Char) := do
  let lines ← pageLines results (sortNats (results.map (·.1)))
  .ok ("PDF Processing Summary\n".data ++
    List.replicate 30 '=' ++ "\n\n".data ++
    ("Input PDF: " ++ pdfPath ++ "\n").data ++
    ("Total pages: " ++ natToStr total ++ "\n").data ++
    ("Successful pages: " ++ natToStr succ ++ "\n").data ++
    ("Failed pages: " ++ natToStr fail ++ "\n").data ++
    ("Processing completed: " ++ doneAt ++ "\n\n").data ++ lines)

/-- The value written to `combined_results.json`; `json.dump` renders the
integer page-number keys as decimal strings, in insertion (completion)
order. -/
def combinedJson (total succ fail : Nat) (iso : String)
    (results : List (Nat × Obj)) : Json :=
  .obj [("summary", .obj [
      ("total_pages", .num total),
      ("successful_pages", .num succ),
      ("failed_pages", .num fail),
      ("processing_timestamp", .str iso)]),
    ("page_results", .obj (results.map (fun pr => (natToStr pr.1, Json.obj pr.2))))]

/-- A full run environment: the three clock readings the source takes, the
splitter environment, and the client behaviour. -/
structure RunEnv where
  timestamp : String
  doneAt : String
  isoNow : String
  split : SplitEnv
  client : Client

/-- The aggregate dict `process_pdf_by_pages` returns on the normal path. -/
structure RunResult where
  output_directory : String
  total_pages : Nat
  successful_pages : Nat
  failed_pages : Nat
  results : List (Nat × Obj)

/-- The dispatcher's returned value: the explicit empty-input marker
`{"error": "No pages found in PDF"}`, or the aggregate. -/
inductive RunOutput where
  | noPages : RunOutput
  | done (r : RunResult) : RunOutput

/-- Exceptions that escape `process_pdf_by_pages`: a propagated splitter
error, `ThreadPoolExecutor`'s `ValueError` for a non-positive pool size,
or an exception raised while persisting results or summaries. -/
inductive RunError where
  | splitFailed (e : SplitErr) : RunError
  | badMaxWorkers : RunError
  | persistError : RunError

/-- The collection loop: take completed `(page, result)` pairs in
completion order, store each in the results dict, persist it immediately,
and bump the matching counter (`"error" in result`). -/
def collectLoop (client : Client) (outDir : String) :
    List (Nat × String) → List (Nat × Obj) → Nat → Nat → FS → TempFS →
      Except Unit (List (Nat × Obj) × Nat × Nat) × FS × TempFS
  | [], results, succ, fail, fs, tmp => (.ok (results, succ, fail), fs, tmp)
  | page :: rest, results, succ, fail, fs, tmp =>
    let step := process_page_parallel client tmp page
    let p := step.1.1
    let r := step.1.2
    let tmp₁ := step.2
    let results₁ := setResult results p r
    match save_page_result fs outDir p r with
    | .error _ => (.error (), fs, tmp₁)
    | .ok fs₁ =>
      if hasKeyO "error" r then
        collectLoop client outDir rest results₁ succ (fail + 1) fs₁ tmp₁
      else
        collectLoop client outDir rest results₁ (succ + 1) fail fs₁ tmp₁

/-- `process_pdf_by_pages`: name and create the output directory, split the
source (splitter failures propagate), return the explicit empty marker on
zero pages, otherwise dispatch one worker per page and collect completions
in the order `order` (a permutation of the submissions — completion order
is scheduler-chosen), then write the run summary and the combined report
and return the aggregate. -/
def process_pdf_by_pages (env : RunEnv) (pdfPath : String) (maxWorkers : Nat)
    (order : List (Nat × String)) (fs : FS) (tmp : TempFS) :
    Except RunError RunOutput × FS × TempFS :=
  let pdfFilename := basenameOf pdfPath
  let step := create_output_directory env.timestamp (some pdfFilename) fs
  let outDir := step.1
  let fs₁ := step.2
  match split_pdf_by_pages env.split tmp with
  | (.error e, tmp₁) => (.error (.splitFailed e), fs₁, tmp₁)
  | (.ok pageFiles, tmp₁) =>
    if pageFiles.isEmpty then (.ok .noPages, fs₁, tmp₁)
    else if maxWorkers = 0 then (.error .badMaxWorkers, fs₁, tmp₁)
    else
      match collectLoop env.client outDir order [] 0 0 fs₁ tmp₁ with
      | (.error _, fs₂, tmp₂) => (.error .persistError, fs₂, tmp₂)
      | (.ok (results, succ, fail), fs₂, tmp₂) =>
        match runSummaryText pdfPath pageFiles.length succ fail
            env.doneAt results with
        | .error _ => (.error .persistError, fs₂, tmp₂)
        | .ok sumText =>
          let fs₃ := fs₂.write (outDir ++ "/processing_summary.txt") sumText
          let fs₄ := fs₃.write (outDir ++ "/combined_results.json")
            (jsonDump (combinedJson pageFiles.length succ fail
              env.isoNow results))
          (.ok (.done { output_directory := outDir,
                        total_pages := pageFiles.length,
                        successful_pages := succ,
                        failed_pages := fail,
                        results := results }), fs₄, tmp₂)

/-! ## Decimal-numeral lemmas -/

theorem digitChar_isDigit {d : Nat} (h : d < 10) : (digitChar d).isDigit = true := by
  interval_cases d <;> decide

theorem digitChar_toNat {d : Nat} (h : d < 10) : (digitChar d).toNat = 48 + d := by
  interval_cases d <;> decide

/-- The numeric reading of a digit string (the inverse of `natToChars`). -/
def digitsToNat (ds : List Char) : Nat :=
  ds.foldl (fun a c => 10 * a + (c.toNat - 48)) 0

theorem natToCharsCore_fuel (n : Nat) :
    ∀ fuel fuel' acc, n < fuel → n < fuel' →
      natToCharsCore fuel n acc = natToCharsCore fuel' n acc := by
  induction n using Nat.strong_induction_on with
  | _ n ih =>
    intro fuel fuel' acc hf hf'
    cases fuel with
    | zero => omega
    | succ f =>
      cases fuel' with
      | zero => omega
      | succ f' =>
        by_cases h : n < 10
        · simp [natToCharsCore, h]
        · have hdlt : n / 10 < n := Nat.div_lt_self (by omega) (by omega)
          simp only [natToCharsCore, if_neg h]
          exact ih _ hdlt f f' _ (by omega) (by omega)

theorem natToCharsCore_append (n : Nat) :
    ∀ fuel acc, n < fuel →
      natToCharsCore fuel n acc = natToCharsCore fuel n [] ++ acc := by
  induction n using Nat.strong_induction_on with
  | _ n ih =>
    intro fuel acc hf
    cases fuel with
    | zero => omega
    | succ f =>
      by_cases h : n < 10
      · simp [natToCharsCore, h]
      · have hdlt : n / 10 < n := Nat.div_lt_self (by omega) (by omega)
        simp only [natToCharsCore, if_neg h]
        rw [ih _ hdlt f (digitChar (n % 10) :: acc) (by omega),
          ih _ hdlt f [digitChar (n % 10)] (by omega)]
        simp

theorem natToChars_small {n : Nat} (h : n < 10) :
    natToChars n = [digitChar n] := by
  simp [natToChars, natToCharsCore, h]

theorem natToChars_step {n : Nat} (h : ¬ n < 10) :
    natToChars n = natToChars (n / 10) ++ [digitChar (n % 10)] := by
  have hdlt : n / 10 < n := Nat.div_lt_self (by omega) (by omega)
  rw [natToChars, natToChars]
  simp only [natToCharsCore, if_neg h]
  rw [natToCharsCore_fuel (n / 10) n (n / 10 + 1) _ (by omega) (by omega)]
  exact natToCharsCore_append _ _ _ (by omega)

theorem natToChars_ne_nil (n : Nat) : natToChars n ≠ [] := by
  by_cases h : n < 10
  · rw [natToChars_small h]; simp
  · rw [natToChars_step h]; simp

theorem natToChars_digits (n : Nat) :
    ∀ c ∈ natToChars n, c.isDigit = true := by
  induction n using Nat.strong_induction_on with
  | _ n ih =>
    intro c hc
    by_cases h : n < 10
    · rw [natToChars_small h] at hc
      simp at hc
      subst hc
      exact digitChar_isDigit h
    · rw [natToChars_step h] at hc
      simp at hc
      rcases hc with hc | hc
      · exact ih _ (Nat.div_lt_self (by omega) (by omega)) c hc
      · subst hc
        exact digitChar_isDigit (Nat.mod_lt _ (by omega))

theorem digitsToNat_natToChars (n : Nat) : digitsToNat (natToChars n) = n := by
  induction n using Nat.strong_induction_on with
  | _ n ih =>
    by_cases h : n < 10
    · rw [natToChars_small h]
      simp [digitsToNat, digitChar_toNat h]
    · rw [natToChars_step h]
      have hd : n / 10 < n := Nat.div_lt_self (by omega) (by omega)
      have := ih _ hd
      simp only [digitsToNat, List.foldl_append] at this ⊢
      rw [this]
      simp [digitChar_toNat (Nat.mod_lt n (show 0 < 10 by omega))]
      omega

theorem natToChars_injective {a b : Nat} (h : natToChars a = natToChars b) :
    a = b := by
  have := congrArg digitsToNat h
  rwa [digitsToNat_natToChars, digitsToNat_natToChars] at this

theorem natToStr_injective {a b : Nat} (h : natToStr a = natToStr b) : a = b := by
  apply natToChars_injective
  injection h

theorem tempName_injective {a b : Nat} (h : tempName a = tempName b) : a = b := by
  unfold tempName at h
  have h' := congrArg String.data h
  simp only [String.data_append, List.append_assoc] at h'
  have h₂ : (natToStr a).data ++ ['.', 'p', 'd', 'f'] =
      (natToStr b).data ++ ['.', 'p', 'd', 'f'] := List.append_cancel_left h'
  have h₃ : (natToStr a).data = (natToStr b).data := List.append_cancel_right h₂
  exact natToStr_injective (String.ext h₃)

/-! ## Claim C5 — sanitizer character class -/

/-- The literal class `[A-Za-z0-9._-]` of the specification, by code point. -/
def inAllowedSet (c : Char) : Bool :=
  (65 ≤ c.toNat && c.toNat ≤ 90) || (97 ≤ c.toNat && c.toNat ≤ 122) ||
  (48 ≤ c.toNat && c.toNat ≤ 57) ||
  c = '.' || c = '_' || c = '-'

/-- C5, counterexample: the sanitizer keeps `é` (CPython `str.isalnum` is
Unicode-aware), yet `é` is outside `[A-Za-z0-9._-]`; so not every character
outside that set is mapped to an underscore. -/
theorem C5_counterexample :
    safeFilename "é" = "é" ∧ inAllowedSet 'é' = false := by
  constructor
  · rfl
  · decide

theorem sanitizeChar_keep {c : Char}
    (h : (pyIsAlnum c || c = '.' || c = '_' || c = '-') = true) :
    sanitizeChar c = c := by
  unfold sanitizeChar
  rw [if_pos h]

theorem sanitizeChar_drop {c : Char}
    (h : ¬ (pyIsAlnum c || c = '.' || c = '_' || c = '-') = true) :
    sanitizeChar c = '_' := by
  unfold sanitizeChar
  rw [if_neg h]

/-- C5, amended: every character of the sanitized output is kept by the
`isalnum`-or-`"._-"` test (underscore included), and on ASCII inputs the
original statement holds: every output character lies in `[A-Za-z0-9._-]`. -/
theorem C5_sanitizer_amended (s : String) :
    (∀ c ∈ (safeFilename s).data, (pyIsAlnum c || inAllowedSet c) = true) ∧
    ((∀ c ∈ s.data, c.toNat < 128) →
      ∀ c ∈ (safeFilename s).data, inAllowedSet c = true) := by
  have hmem : ∀ c ∈ (safeFilename s).data, ∃ c₀ ∈ s.data, sanitizeChar c₀ = c := by
    intro c hc
    simpa [safeFilename] using hc
  constructor
  · intro c hc
    obtain ⟨c₀, _, rfl⟩ := hmem c hc
    by_cases h : (pyIsAlnum c₀ || c₀ = '.' || c₀ = '_' || c₀ = '-') = true
    · rw [sanitizeChar_keep h]
      simp only [Bool.or_eq_true, decide_eq_true_eq] at h ⊢
      rcases h with ((h | h) | h) | h
      · exact Or.inl h
      all_goals
        subst h
        decide
    · rw [sanitizeChar_drop h]
      decide
  · intro hascii c hc
    obtain ⟨c₀, hc₀, rfl⟩ := hmem c hc
    have hlt : c₀.toNat < 128 := hascii c₀ hc₀
    by_cases h : (pyIsAlnum c₀ || c₀ = '.' || c₀ = '_' || c₀ = '-') = true
    · rw [sanitizeChar_keep h]
      simp only [Bool.or_eq_true, decide_eq_true_eq] at h
      rcases h with ((h | h) | h) | h
      · -- an ASCII character accepted by `pyIsAlnum` is an ASCII alphanumeric
        unfold pyIsAlnum at h
        unfold inAllowedSet
        simp only [Bool.or_eq_true, Bool.and_eq_true, decide_eq_true_eq] at h ⊢
        omega
      all_goals
        subst h
        decide
    · rw [sanitizeChar_drop h]
      decide

/-- C5 witness: the amended theorem evaluated on `"ab c"` (ASCII input with
a space): every output character is in the allowed class. -/
theorem C5_sanitizer_amended_witness :
    (∀ c ∈ (safeFilename "ab c").data, (pyIsAlnum c || inAllowedSet c) = true) ∧
    (∀ c ∈ (safeFilename "ab c").data, inAllowedSet c = true) :=
  ⟨(C5_sanitizer_amended "ab c").1,
   (C5_sanitizer_amended "ab c").2 (by decide)⟩

/-! ## Splitter lemmas — claims C7 and C3 -/

/-- The empty durable store. -/
def emptyFS : FS := ⟨fun _ => false, fun _ => none⟩

/-- No temporary files present. -/
def noTemps : TempFS := fun _ => false

/-- The temporary files of iterations `i, i+1, …, i+r-1` created. -/
def markTemps (fs : TempFS) (i r : Nat) : TempFS :=
  (List.range' i r).foldl (fun g j => setTemp g (tempName j) true) fs

theorem markTemps_zero (fs : TempFS) (i : Nat) : markTemps fs i 0 = fs := rfl

theorem markTemps_succ (fs : TempFS) (i r : Nat) :
    markTemps fs i (r + 1) = markTemps (setTemp fs (tempName i) true) (i + 1) r := by
  rw [markTemps, List.range'_succ]
  rfl

theorem markTemps_eval (r : Nat) : ∀ (i : Nat) (fs : TempFS) (q : String),
    markTemps fs i r q =
      if q ∈ (List.range' i r).map tempName then true else fs q := by
  induction r with
  | zero => intro i fs q; simp [markTemps_zero]
  | succ r ih =>
    intro i fs q
    rw [markTemps_succ, ih, List.range'_succ]
    by_cases hq : q ∈ (List.range' (i + 1) r).map tempName
    · simp [hq]
    · by_cases hq' : q = tempName i
      · simp [hq, hq', setTemp]
      · simp [hq, hq', setTemp]

theorem cleanupTemps_eval (pages : List (Nat × String)) :
    ∀ (fs : TempFS) (q : String),
      cleanupTemps pages fs q =
        if q ∈ pages.map Prod.snd then false else fs q := by
  induction pages with
  | nil => intro fs q; simp [cleanupTemps]
  | cons pg rest ih =>
    intro fs q
    have hstep : cleanupTemps (pg :: rest) fs =
        cleanupTemps rest (setTemp fs pg.2 false) := rfl
    rw [hstep, ih]
    by_cases hq : q ∈ rest.map Prod.snd
    · simp [hq]
    · by_cases hq' : q = pg.2
      · simp [hq, hq', setTemp]
      · simp [hq, hq', setTemp]

/-- A clean split loop records pages `i+1 …` in order and leaves every
iteration's temporary file created. -/
theorem splitGo_clean (r : Nat) :
    ∀ (i : Nat) (acc : List (Nat × String)) (fs : TempFS),
      splitGo none i r acc fs =
        (.ok (acc ++ (List.range' i r).map (fun j => (j + 1, tempName j))),
         markTemps fs i r) := by
  induction r with
  | zero => intro i acc fs; simp [splitGo, markTemps_zero]
  | succ r ih =>
    intro i acc fs
    rw [splitGo]
    simp only [reduceCtorEq, or_self, if_false]
    rw [ih (i + 1) (acc ++ [(i + 1, tempName i)]) _, List.range'_succ,
      markTemps_succ]
    simp

/-- A split loop whose oracle fires at iteration `k` unlinks every page
recorded in iterations `i … k-1` but leaves iteration `k`'s temporary file
behind. -/
theorem splitGo_fail (k : Nat) (pt : PagePoint) (r : Nat) :
    ∀ (i : Nat) (acc : List (Nat × String)) (fs : TempFS), i ≤ k → k < i + r →
      splitGo (some (.page k pt)) i r acc fs =
        (.error .splitFailure,
         cleanupTemps
           (acc ++ (List.range' i (k - i)).map (fun j => (j + 1, tempName j)))
           (markTemps fs i (k - i + 1))) := by
  induction r with
  | zero => intro i acc fs h1 h2; omega
  | succ r ih =>
    intro i acc fs h1 h2
    by_cases hik : i = k
    · subst hik
      rw [splitGo]
      have hcond : some (SplitSpot.page i pt) = some (.page i .add) ∨
          some (SplitSpot.page i pt) = some (.page i .writeOut) := by
        cases pt
        · exact Or.inl rfl
        · exact Or.inr rfl
      rw [if_pos hcond]
      simp [Nat.sub_self, markTemps_succ, markTemps_zero]
    · have hik' : i < k := by omega
      rw [splitGo]
      have hcond : ¬ (some (SplitSpot.page k pt) = some (.page i .add) ∨
          some (SplitSpot.page k pt) = some (.page i .writeOut)) := by
        intro hc
        rcases hc with hc | hc <;> (injection hc with hc'; injection hc'; omega)
      rw [if_neg hcond]
      rw [ih (i + 1) (acc ++ [(i + 1, tempName i)]) _ (by omega) (by omega)]
      have h3 : k - i = (k - (i + 1)) + 1 := by omega
      conv_rhs => rw [h3, List.range'_succ, markTemps_succ]
      simp

/-- C7: on an existing source with a clean parse, `split_pdf_by_pages`
returns exactly one page per source page, numbered `1..N` in order (the
page-number projection is the strictly increasing `List.range' 1 N`); on a
missing source path it fails with the not-found error. -/
theorem C7_split_contract (env : SplitEnv) (tmp : TempFS) :
    (env.pdfExists = true → env.failAt = none →
      (split_pdf_by_pages env tmp).1 =
        .ok ((List.range' 0 env.totalPages).map (fun j => (j + 1, tempName j))) ∧
      ((List.range' 0 env.totalPages).map (fun j => (j + 1, tempName j))).map
          Prod.fst = List.range' 1 env.totalPages) ∧
    (env.pdfExists = false →
      (split_pdf_by_pages env tmp).1 = .error .notFound) := by
  constructor
  · intro hex hfail
    constructor
    · unfold split_pdf_by_pages
      rw [hex, hfail]
      simp [splitGo_clean]
    · rw [List.map_map, List.range'_eq_map_range, List.map_map,
        List.range'_eq_map_range]
      apply List.map_congr_left
      intro a _
      simp [Function.comp]
      omega
  · intro hex
    unfold split_pdf_by_pages
    rw [hex]
    simp

/-- C7 witness: a clean three-page split and a missing-file split,
via `C7_split_contract`. -/
theorem C7_split_contract_witness :
    (split_pdf_by_pages ⟨true, 3, none⟩ noTemps).1 =
      .ok [(1, tempName 0), (2, tempName 1), (3, tempName 2)] ∧
    (split_pdf_by_pages ⟨false, 3, none⟩ noTemps).1 = .error .notFound := by
  constructor
  · exact (((C7_split_contract ⟨true, 3, none⟩ noTemps).1 rfl rfl).1).trans (by rfl)
  · exact (C7_split_contract ⟨false, 3, none⟩ noTemps).2 rfl

/-- C3, counterexample: a parse error while adding page 3 of 5 (0-based
iteration 2) propagates as the wrapped split failure, but the temporary
file already allocated for that iteration is left on disk — the claimed
"no temporary-file leak" does not hold. -/
theorem C3_counterexample :
    (split_pdf_by_pages ⟨true, 5, some (.page 2 .add)⟩ noTemps).1 =
      .error .splitFailure ∧
    (split_pdf_by_pages ⟨true, 5, some (.page 2 .add)⟩ noTemps).2
      (tempName 2) = true := by
  exact ⟨rfl, rfl⟩

/-- C3, amended: when the oracle raises at iteration `k`, the splitter
deletes every temporary artifact recorded for the completed iterations
`0..k-1` before the wrapped failure propagates; only the file allocated in
the failing iteration itself survives. -/
theorem C3_split_cleanup_amended (env : SplitEnv) (tmp : TempFS) (k : Nat)
    (pt : PagePoint) (hex : env.pdfExists = true)
    (hf : env.failAt = some (.page k pt)) (hk : k < env.totalPages) :
    (split_pdf_by_pages env tmp).1 = .error .splitFailure ∧
    (∀ j, j < k → (split_pdf_by_pages env tmp).2 (tempName j) = false) ∧
    (split_pdf_by_pages env tmp).2 (tempName k) = true := by
  unfold split_pdf_by_pages
  rw [hex, hf]
  have hnotreader : ¬ (some (SplitSpot.page k pt) = some SplitSpot.reader) := by
    intro hc
    injection hc with hc'
    exact SplitSpot.noConfusion hc'
  simp only [Bool.true_eq_false, if_false, if_neg hnotreader]
  rw [splitGo_fail k pt env.totalPages 0 [] tmp (by omega) (by omega)]
  refine ⟨rfl, ?_, ?_⟩
  · intro j hj
    dsimp only
    rw [cleanupTemps_eval]
    have : tempName j ∈
        (([] : List (Nat × String)) ++
          (List.range' 0 (k - 0)).map (fun j => (j + 1, tempName j))).map
            Prod.snd := by
      simp only [List.nil_append, List.map_map]
      refine List.mem_map.mpr ⟨j, ?_, rfl⟩
      simp [List.mem_range'_1]
      omega
    rw [if_pos this]
  · dsimp only
    rw [cleanupTemps_eval]
    have hnot : ¬ tempName k ∈
        (([] : List (Nat × String)) ++
          (List.range' 0 (k - 0)).map (fun j => (j + 1, tempName j))).map
            Prod.snd := by
      simp only [List.nil_append, List.map_map]
      intro hc
      obtain ⟨j, hj, hje⟩ := List.mem_map.mp hc
      have := tempName_injective hje
      simp [List.mem_range'_1] at hj
      omega
    rw [if_neg hnot, markTemps_eval]
    have : tempName k ∈ (List.range' 0 (k - 0 + 1)).map tempName := by
      refine List.mem_map.mpr ⟨k, ?_, rfl⟩
      simp [List.mem_range'_1]
    rw [if_pos this]

/-- C3 witness for the amended theorem: the iteration-2 failure on a
five-page source, with pages 0 and 1 cleaned and page 2's file leaked. -/
theorem C3_split_cleanup_amended_witness :
    (split_pdf_by_pages ⟨true, 5, some (.page 2 .add)⟩ noTemps).1 =
      .error .splitFailure ∧
    (split_pdf_by_pages ⟨true, 5, some (.page 2 .add)⟩ noTemps).2
      (tempName 1) = false ∧
    (split_pdf_by_pages ⟨true, 5, some (.page 2 .add)⟩ noTemps).2
      (tempName 2) = true := by
  obtain ⟨h1, h2, h3⟩ :=
    C3_split_cleanup_amended ⟨true, 5, some (.page 2 .add)⟩ noTemps 2
      PagePoint.add rfl rfl (by decide)
  exact ⟨h1, h2 1 (by omega), h3⟩

/-! ## Page Worker — claim C4 -/

/-- C4: for every client behaviour the worker returns the pair
`(pageNumber, result)` with the submitted page number — success payloads
verbatim, any raised exception captured as `{"error": str(e)}` — and the
page's temporary file is gone on both exit paths.  The worker is a total
function of the client outcome: no exception of the modelled error type
crosses it. -/
theorem C4_worker_total_and_cleanup (client : Client) (tmp : TempFS)
    (pageInfo : Nat × String) :
    (process_page_parallel client tmp pageInfo).1.1 = pageInfo.1 ∧
    (process_page_parallel client tmp pageInfo).2 pageInfo.2 = false ∧
    ((∃ r, client pageInfo.1 = .ok r ∧
        (process_page_parallel client tmp pageInfo).1.2 = r) ∨
     (∃ e, client pageInfo.1 = .error e ∧
        (process_page_parallel client tmp pageInfo).1.2 =
          [("error", Json.str e)])) := by
  refine ⟨rfl, ?_, ?_⟩
  · simp [process_page_parallel, setTemp]
  · cases hc : client pageInfo.1 with
    | ok r => exact Or.inl ⟨r, rfl, by simp [process_page_parallel, hc]⟩
    | error e => exact Or.inr ⟨e, rfl, by simp [process_page_parallel, hc]⟩

/-! ## Result Persister lemmas — claim C8 -/

theorem except_bind_ok {ε α β : Type} (a : α) (f : α → Except ε β) :
    (bind (Except.ok a) f : Except ε β) = f a := rfl

/-- A Python dict (usable as a `product.get` receiver). -/
def elemIsDict : Json → Bool
  | .obj _ => true
  | _ => false

/-- Result shapes on which the summary writers do not raise: either an
error-keyed result, or one whose `products` (defaulting to `[]`) is
iterable with every element a dict. -/
def resultWellShaped (r : Obj) : Bool :=
  hasKeyO "error" r ||
    (match pyIter (getD r "products" (Json.arr [])) with
     | .ok elems => elems.all elemIsDict
     | .error _ => false)

theorem pyIter_ok_pyLen {j : Json} {elems : List Json}
    (h : pyIter j = .ok elems) : ∃ n, pyLen j = .ok n := by
  cases j <;> simp [pyIter, pyLen] at h ⊢

theorem formatProducts_ok {elems : List Json}
    (h : elems.all elemIsDict = true) :
    ∀ i, ∃ l, formatProducts i elems = .ok l := by
  induction elems with
  | nil => intro i; exact ⟨[], rfl⟩
  | cons p ps ih =>
    intro i
    simp only [List.all_cons, Bool.and_eq_true] at h
    obtain ⟨rest, hrest⟩ := ih h.2 (i + 1)
    cases p <;> simp [elemIsDict] at h
    case obj mp =>
      simp only [formatProducts, formatProduct, except_bind_ok, hrest]
      exact ⟨_, rfl⟩

theorem summaryBody_ok {r : Obj} (h : resultWellShaped r = true) :
    ∃ l, summaryBody r = .ok l := by
  by_cases he : hasKeyO "error" r = true
  · simp only [summaryBody, he, if_true]
    exact ⟨_, rfl⟩
  · have h' := h
    unfold resultWellShaped at h'
    rw [Bool.or_eq_true] at h'
    rcases h' with h' | h'
    · exact absurd h' he
    · cases hiter : pyIter (getD r "products" (Json.arr [])) with
      | error e => rw [hiter] at h'; simp at h'
      | ok elems =>
        rw [hiter] at h'
        obtain ⟨n, hn⟩ := pyIter_ok_pyLen hiter
        obtain ⟨blocks, hblocks⟩ := formatProducts_ok h' 1
        simp only [summaryBody, he, if_false, hn, hiter, hblocks,
          except_bind_ok]
        exact ⟨_, rfl⟩

theorem pageSummaryText_ok {r : Obj} (n : Nat)
    (h : resultWellShaped r = true) :
    ∃ l, pageSummaryText n r = .ok l := by
  obtain ⟨l, hl⟩ := summaryBody_ok h
  simp only [pageSummaryText, hl, except_bind_ok]
  exact ⟨_, rfl⟩

theorem rfindChar_of_not_mem {c : Char} {cs : List Char}
    (h : ∀ x ∈ cs, x ≠ c) : rfindChar c cs = none := by
  induction cs with
  | nil => rfl
  | cons x xs ih =>
    have hx : x ≠ c := h x (by simp)
    rw [rfindChar, ih (fun y hy => h y (by simp [hy]))]
    simp [hx]

theorem rfindChar_last {c : Char} (xs : List Char) {ys : List Char}
    (h : ∀ y ∈ ys, y ≠ c) :
    rfindChar c (xs ++ c :: ys) = some xs.length := by
  induction xs with
  | nil =>
    rw [List.nil_append, rfindChar, rfindChar_of_not_mem h]
    simp
  | cons x xs ih =>
    rw [List.cons_append, rfindChar, ih]
    simp

theorem pad3_no_slash (n : Nat) : ∀ ch ∈ (pad3 n).data, ch ≠ '/' := by
  have hdig : ∀ ch ∈ (natToStr n).data, ch.isDigit = true := by
    intro ch hch
    exact natToChars_digits n ch hch
  intro ch hch
  unfold pad3 at hch
  have : ch.isDigit = true → ch ≠ '/' := by
    intro hd he
    subst he
    simp [Char.isDigit] at hd
  split at hch <;>
    [skip; split at hch]
  · rw [String.data_append] at hch
    rcases List.mem_append.mp hch with hc | hc
    · intro he; subst he; simp at hc
    · exact this (hdig ch hc)
  · rw [String.data_append] at hch
    rcases List.mem_append.mp hch with hc | hc
    · intro he; subst he; simp at hc
    · exact this (hdig ch hc)
  · exact this (hdig ch hch)

theorem parentDir_pageDir (outputDir : String) (n : Nat) :
    parentDir (pageDirPath outputDir n) = outputDir := by
  unfold parentDir pageDirPath
  have hdata : ((outputDir ++ "/" ++ pad3 n)).data =
      outputDir.data ++ '/' :: (pad3 n).data := by
    rw [String.data_append, String.data_append]
    simp
  rw [hdata, rfindChar_last outputDir.data (pad3_no_slash n)]
  apply String.ext
  exact List.take_left outputDir.data ('/' :: (pad3 n).data)

theorem mkdirExistOk_ok {fs : FS} {p : String}
    (hpar : fs.dirs (parentDir p) = true) :
    ∃ fs₁, fs.mkdirExistOk p = .ok fs₁ ∧ fs₁.files = fs.files ∧
      (∀ q, fs₁.dirs q = if q = p then true else fs.dirs q) := by
  unfold FS.mkdirExistOk
  rw [if_neg (by simp [hpar])]
  cases hp : fs.dirs p with
  | true =>
    refine ⟨fs, by simp, rfl, ?_⟩
    intro q
    by_cases hq : q = p
    · subst hq; simp [hp]
    · simp [hq]
  | false =>
    refine ⟨{ fs with dirs := fun q => if q = p then true else fs.dirs q },
      ?_, rfl, fun q => rfl⟩
    simp

theorem resultPath_ne_summaryPath (p : String) :
    ¬ (p ++ "/result.json") = (p ++ "/summary.txt") := by
  intro h
  have h' := congrArg String.data h
  rw [String.data_append, String.data_append] at h'
  have := List.append_cancel_left h'
  simp at this

/-- The persister's effect on a well-shaped result: a success whose store
holds the serialized result at `<page:03d>/result.json` and the summary at
`<page:03d>/summary.txt`, directories otherwise untouched. -/
theorem save_page_result_ok {fs : FS} {outputDir : String} {n : Nat} {r : Obj}
    (hdir : fs.dirs outputDir = true) (hws : resultWellShaped r = true) :
    ∃ fs' body,
      pageSummaryText n r = .ok body ∧
      save_page_result fs outputDir n r = .ok fs' ∧
      (∀ q, fs'.dirs q =
        if q = pageDirPath outputDir n then true else fs.dirs q) ∧
      (∀ q, fs'.files q =
        if q = pageDirPath outputDir n ++ "/summary.txt" then some body
        else if q = pageDirPath outputDir n ++ "/result.json" then
          some (jsonDump (Json.obj r))
        else fs.files q) := by
  obtain ⟨body, hbody⟩ := pageSummaryText_ok n hws
  obtain ⟨fs₁, hmk, hfiles₁, hdirs₁⟩ :=
    @mkdirExistOk_ok fs (pageDirPath outputDir n)
      (by rw [parentDir_pageDir]; exact hdir)
  refine ⟨FS.write
      (FS.write fs₁ (pageDirPath outputDir n ++ "/result.json")
        (jsonDump (Json.obj r)))
      (pageDirPath outputDir n ++ "/summary.txt") body,
    body, hbody, ?_, ?_, ?_⟩
  · simp only [save_page_result, hmk, except_bind_ok, hbody]
  · intro q
    simpa [FS.write] using hdirs₁ q
  · intro q
    simp only [FS.write]
    rw [hfiles₁]

/-- C8: the Result Persister is idempotent — the first call succeeds (no
error from the already-existing page directory), the second call with
identical inputs returns the very same store, and `result.json` holds the
serialized result (overwritten, not appended). -/
theorem C8_save_idempotent (fs : FS) (outputDir : String) (n : Nat) (r : Obj)
    (hdir : fs.dirs outputDir = true) (hws : resultWellShaped r = true) :
    ∃ fs', save_page_result fs outputDir n r = .ok fs' ∧
      save_page_result fs' outputDir n r = .ok fs' ∧
      fs'.files (pageDirPath outputDir n ++ "/result.json") =
        some (jsonDump (Json.obj r)) := by
  obtain ⟨fs', body, hbody, hsave, hdirs, hfiles⟩ :=
    save_page_result_ok hdir hws
  have hrfile : fs'.files (pageDirPath outputDir n ++ "/result.json") =
      some (jsonDump (Json.obj r)) := by
    rw [hfiles]
    rw [if_neg (resultPath_ne_summaryPath (pageDirPath outputDir n))]
    simp
  refine ⟨fs', hsave, ?_, hrfile⟩
  have hdir' : fs'.dirs outputDir = true := by
    rw [hdirs]
    split <;> simp [hdir]
  obtain ⟨fs'', body₂, hbody₂, hsave₂, hdirs₂, hfiles₂⟩ :=
    @save_page_result_ok fs' outputDir n r hdir' hws
  have hbeq : body₂ = body := by
    rw [hbody] at hbody₂
    injection hbody₂ with h
    exact h.symm
  subst hbeq
  rw [hsave₂]
  congr 1
  apply FS.ext
  · funext q
    rw [hdirs₂ q, hdirs q]
    split <;> rfl
  · funext q
    rw [hfiles₂ q]
    by_cases h1 : q = pageDirPath outputDir n ++ "/summary.txt"
    · rw [if_pos h1, hfiles q, if_pos h1]
    · rw [if_neg h1]
      by_cases h2 : q = pageDirPath outputDir n ++ "/result.json"
      · rw [if_pos h2]
        subst h2
        exact hrfile.symm
      · rw [if_neg h2]

/-- C8 witness: a double save of an error result into an existing output
directory, via `C8_save_idempotent`. -/
theorem C8_save_idempotent_witness :
    ∃ fs', save_page_result ⟨fun q => q == "output/x", fun _ => none⟩
        "output/x" 1 [("error", Json.str "boom")] = .ok fs' ∧
      save_page_result fs' "output/x" 1 [("error", Json.str "boom")] =
        .ok fs' ∧
      fs'.files (pageDirPath "output/x" 1 ++ "/result.json") =
        some (jsonDump (Json.obj [("error", Json.str "boom")])) :=
  C8_save_idempotent ⟨fun q => q == "output/x", fun _ => none⟩
    "output/x" 1 [("error", Json.str "boom")] (by decide) (by decide)

/-! ## Dispatcher lemmas — claims C1, C2, C6, C10 -/

/-- The result the worker hands the collector for page `p`. -/
def workerResult (client : Client) (p : Nat) : Obj :=
  match client p with
  | .ok r => r
  | .error e => [("error", Json.str e)]

/-- The page list a clean `N`-page split produces. -/
def pagesOf (n : Nat) : List (Nat × String) :=
  (List.range' 0 n).map (fun j => (j + 1, tempName j))

theorem pagesOf_fst (n : Nat) :
    (pagesOf n).map Prod.fst = List.range' 1 n := by
  unfold pagesOf
  rw [List.map_map, List.range'_eq_map_range, List.map_map,
    List.range'_eq_map_range]
  apply List.map_congr_left
  intro a _
  simp [Function.comp]
  omega

theorem pagesOf_length (n : Nat) : (pagesOf n).length = n := by
  simp [pagesOf]

theorem worker_eval (client : Client) (tmp : TempFS) (page : Nat × String) :
    process_page_parallel client tmp page =
      ((page.1, workerResult client page.1), setTemp tmp page.2 false) := rfl

theorem setResult_fresh {results : List (Nat × Obj)} {p : Nat} (r : Obj)
    (h : p ∉ results.map Prod.fst) :
    setResult results p r = results ++ [(p, r)] := by
  induction results with
  | nil => rfl
  | cons pr rest ih =>
    simp only [List.map_cons, List.mem_cons] at h
    push_neg at h
    rw [setResult]
    rw [if_neg (fun hc => h.1 hc.symm)]
    rw [ih h.2]
    simp

theorem getD_of_no_key {o : Obj} {k : String} (h : hasKeyO k o = false)
    (dflt : Json) : getD o k dflt = dflt := by
  unfold getD
  have : o.find? (fun kv => kv.1 == k) = none := by
    rw [List.find?_eq_none]
    intro kv hkv hb
    have : o.any (fun kv => kv.1 == k) = true := by
      rw [List.any_eq_true]
      exact ⟨kv, hkv, hb⟩
    rw [hasKeyO] at h
    rw [h] at this
    exact Bool.noConfusion this
  rw [this]

theorem getResultD_wellShaped {results : List (Nat × Obj)}
    (h : ∀ pr ∈ results, resultWellShaped pr.2 = true) (p : Nat) :
    resultWellShaped (getResultD results p) = true := by
  unfold getResultD
  cases hf : results.find? (fun pr => pr.1 == p) with
  | some pr => exact h pr (List.mem_of_find?_eq_some hf)
  | none => decide

theorem pageLine_ok {r : Obj} (p : Nat) (h : resultWellShaped r = true) :
    ∃ l, pageLine p r = .ok l := by
  by_cases he : hasKeyO "error" r = true
  · simp only [pageLine, he, if_true]
    exact ⟨_, rfl⟩
  · have h' := h
    unfold resultWellShaped at h'
    rw [Bool.or_eq_true] at h'
    rcases h' with h' | h'
    · exact absurd h' he
    · cases hiter : pyIter (getD r "products" (Json.arr [])) with
      | error e => rw [hiter] at h'; simp at h'
      | ok elems =>
        obtain ⟨n, hn⟩ := pyIter_ok_pyLen hiter
        simp only [pageLine, he, if_false, hn, except_bind_ok]
        exact ⟨_, rfl⟩

theorem pageLines_ok {results : List (Nat × Obj)}
    (h : ∀ pr ∈ results, resultWellShaped pr.2 = true) :
    ∀ ks, ∃ l, pageLines results ks = .ok l := by
  intro ks
  induction ks with
  | nil => exact ⟨[], rfl⟩
  | cons p ps ih =>
    obtain ⟨l, hl⟩ := pageLine_ok p (getResultD_wellShaped h p)
    obtain ⟨rest, hrest⟩ := ih
    simp only [pageLines, hl, hrest, except_bind_ok]
    exact ⟨_, rfl⟩

theorem runSummaryText_ok {results : List (Nat × Obj)}
    (pdfPath : String) (total succ fail : Nat) (doneAt : String)
    (h : ∀ pr ∈ results, resultWellShaped pr.2 = true) :
    ∃ l, runSummaryText pdfPath total succ fail doneAt results = .ok l := by
  obtain ⟨lines, hlines⟩ := pageLines_ok h (sortNats (results.map (·.1)))
  simp only [runSummaryText, hlines, except_bind_ok]
  exact ⟨_, rfl⟩

theorem countP_add_countP_not {α : Type} (p : α → Bool) (l : List α) :
    l.countP p + l.countP (fun a => !p a) = l.length := by
  induction l with
  | nil => rfl
  | cons a l ih =>
    rw [List.countP_cons, List.countP_cons, List.length_cons]
    cases hp : p a <;> simp [hp] <;> omega

/-- The collection loop on fresh, well-shaped completions: every completed
page is appended to the results dict and persisted, and each counter
advances by the number of results with / without an `"error"` key. -/
theorem collectLoop_ok (client : Client) (outDir : String)
    (order : List (Nat × String)) :
    ∀ (results : List (Nat × Obj)) (succ fail : Nat) (fs : FS) (tmp : TempFS),
      (∀ pr ∈ order, resultWellShaped (workerResult client pr.1) = true) →
      fs.dirs outDir = true →
      (results.map Prod.fst ++ order.map Prod.fst).Nodup →
      ∃ fs' tmp',
        collectLoop client outDir order results succ fail fs tmp =
          (.ok (results ++
                  order.map (fun pr => (pr.1, workerResult client pr.1)),
                succ + order.countP
                  (fun pr => !hasKeyO "error" (workerResult client pr.1)),
                fail + order.countP
                  (fun pr => hasKeyO "error" (workerResult client pr.1))),
           fs', tmp') ∧
        fs'.dirs outDir = true := by
  induction order with
  | nil =>
    intro results succ fail fs tmp _ hdir _
    exact ⟨fs, tmp, by simp [collectLoop], hdir⟩
  | cons page rest ih =>
    intro results succ fail fs tmp hws hdir hnodup
    have hfresh : page.1 ∉ results.map Prod.fst := by
      rw [List.nodup_append] at hnodup
      intro hc
      exact hnodup.2.2 hc (by simp)
    obtain ⟨fs₁, body, hbody, hsave, hdirs₁, hfiles₁⟩ :=
      @save_page_result_ok fs outDir page.1 (workerResult client page.1)
        hdir (hws page (by simp))
    have hdir₁ : fs₁.dirs outDir = true := by
      rw [hdirs₁]
      split <;> simp [hdir]
    have hnodup' : ((results ++ [(page.1, workerResult client page.1)]).map
        Prod.fst ++ rest.map Prod.fst).Nodup := by
      rw [List.map_append]
      simpa [List.append_assoc] using hnodup
    have hws' : ∀ pr ∈ rest, resultWellShaped (workerResult client pr.1) = true :=
      fun pr hpr => hws pr (by simp [hpr])
    rw [collectLoop, worker_eval]
    simp only
    rw [hsave, setResult_fresh _ hfresh]
    cases herr : hasKeyO "error" (workerResult client page.1) with
    | true =>
      obtain ⟨fs', tmp', heq, hdir'⟩ :=
        ih (results ++ [(page.1, workerResult client page.1)]) succ (fail + 1)
          fs₁ (setTemp tmp page.2 false) hws' hdir₁ hnodup'
      refine ⟨fs', tmp', ?_, hdir'⟩
      dsimp only
      rw [heq]
      simp only [if_true, Bool.not_true, Bool.not_false, Bool.false_eq_true,
        Bool.true_eq_false, if_false, Prod.mk.injEq, Except.ok.injEq,
        List.map_cons, List.countP_cons, herr, List.append_assoc,
        List.singleton_append]
      exact ⟨⟨trivial, by omega, by omega⟩, trivial⟩
    | false =>
      obtain ⟨fs', tmp', heq, hdir'⟩ :=
        ih (results ++ [(page.1, workerResult client page.1)]) (succ + 1) fail
          fs₁ (setTemp tmp page.2 false) hws' hdir₁ hnodup'
      refine ⟨fs', tmp', ?_, hdir'⟩
      dsimp only
      rw [heq]
      simp only [if_true, Bool.not_true, Bool.not_false, Bool.false_eq_true,
        Bool.true_eq_false, if_false, Prod.mk.injEq, Except.ok.injEq,
        List.map_cons, List.countP_cons, herr, List.append_assoc,
        List.singleton_append]
      exact ⟨⟨trivial, by omega, by omega⟩, trivial⟩

theorem mkdirParents_dirs (fs : FS) (p a q : String) :
    (fs.mkdirParents p a).dirs q = ((q == p) || (q == a) || fs.dirs q) := by
  simp only [FS.mkdirParents]
  by_cases h1 : q = p <;> by_cases h2 : q = a <;> simp [h1, h2]

theorem create_output_dirs (timestamp : String) (name : Option String)
    (fs : FS) (q : String) :
    (create_output_directory timestamp name fs).2.dirs q =
      ((q == (create_output_directory timestamp name fs).1) ||
        (q == "output") || fs.dirs q) :=
  mkdirParents_dirs fs _ "output" q

theorem create_output_dir_self (timestamp : String) (name : Option String)
    (fs : FS) :
    (create_output_directory timestamp name fs).2.dirs
      (create_output_directory timestamp name fs).1 = true := by
  rw [create_output_dirs]
  simp

/-- One characterization of every completed run: with a clean `N`-page
split (`N ≥ 1`), a positive pool size, any completion order, and
well-shaped client results, the dispatcher returns the aggregate whose
counters are the number of completions with / without an `"error"` key and
whose results dict lists the worker results in completion order. -/
theorem run_characterization (env : RunEnv) (pdfPath : String)
    (maxWorkers : Nat) (order : List (Nat × String)) (fs : FS) (tmp : TempFS)
    (hex : env.split.pdfExists = true) (hfail : env.split.failAt = none)
    (hN : 1 ≤ env.split.totalPages) (hmw : maxWorkers ≠ 0)
    (hperm : order.Perm (pagesOf env.split.totalPages))
    (hws : ∀ p, resultWellShaped (workerResult env.client p) = true) :
    (process_pdf_by_pages env pdfPath maxWorkers order fs tmp).1 =
      .ok (.done {
        output_directory :=
          (create_output_directory env.timestamp
            (some (basenameOf pdfPath)) fs).1,
        total_pages := env.split.totalPages,
        successful_pages := order.countP
          (fun pr => !hasKeyO "error" (workerResult env.client pr.1)),
        failed_pages := order.countP
          (fun pr => hasKeyO "error" (workerResult env.client pr.1)),
        results :=
          order.map (fun pr => (pr.1, workerResult env.client pr.1)) }) := by
  have hsplit : split_pdf_by_pages env.split tmp =
      (.ok (pagesOf env.split.totalPages), markTemps tmp 0 env.split.totalPages) := by
    unfold split_pdf_by_pages
    rw [hex, hfail]
    simp [splitGo_clean, pagesOf]
  have hne : (pagesOf env.split.totalPages).isEmpty = false := by
    cases h : pagesOf env.split.totalPages with
    | nil =>
      have := pagesOf_length env.split.totalPages
      rw [h] at this
      simp at this
      omega
    | cons a l => rfl
  have hnodup : (([] : List (Nat × Obj)).map Prod.fst ++
      order.map Prod.fst).Nodup := by
    simp only [List.map_nil, List.nil_append]
    have h1 : (order.map Prod.fst).Perm (List.range' 1 env.split.totalPages) := by
      have := hperm.map Prod.fst
      rwa [pagesOf_fst] at this
    exact h1.nodup_iff.mpr (List.nodup_range' _ _)
  obtain ⟨fs', tmp', hloop, _⟩ :=
    collectLoop_ok env.client
      (create_output_directory env.timestamp (some (basenameOf pdfPath)) fs).1
      order [] 0 0
      (create_output_directory env.timestamp (some (basenameOf pdfPath)) fs).2
      (markTemps tmp 0 env.split.totalPages)
      (fun pr _ => hws pr.1) (create_output_dir_self _ _ _) hnodup
  have hresws : ∀ pr ∈ order.map
      (fun pr => (pr.1, workerResult env.client pr.1)),
      resultWellShaped pr.2 = true := by
    intro pr hpr
    obtain ⟨a, _, rfl⟩ := List.mem_map.mp hpr
    exact hws a.1
  obtain ⟨sumText, hsum⟩ :=
    runSummaryText_ok pdfPath (pagesOf env.split.totalPages).length
      (0 + order.countP
        (fun pr => !hasKeyO "error" (workerResult env.client pr.1)))
      (0 + order.countP
        (fun pr => hasKeyO "error" (workerResult env.client pr.1)))
      env.doneAt hresws
  unfold process_pdf_by_pages
  rw [hsplit]
  simp only [hne, Bool.false_eq_true, if_false, hmw, hloop,
    List.nil_append, hsum]
  simp [pagesOf_length]

/-- Results whose `products` key is absent do not trip the summary
writers: the default `[]` is used. -/
theorem noProducts_wellShaped {ems : Obj}
    (hprod : hasKeyO "products" ems = false) :
    resultWellShaped ems = true := by
  unfold resultWellShaped
  rw [getD_of_no_key hprod]
  simp [pyIter]

/-- The counters and result shapes of the returned aggregate, projected
for closed evaluation. -/
def runCounters (o : Except RunError RunOutput × FS × TempFS) :
    Option (Nat × Nat × Nat) :=
  match o.1 with
  | .ok (.done r) => some (r.total_pages, r.successful_pages, r.failed_pages)
  | _ => none

/-- C1: for every run on a source that splits cleanly into `N ≥ 1` pages,
whatever the pool size and the completion order, the returned aggregate
satisfies `successful_pages + failed_pages = total_pages = N`, and the
results mapping holds exactly one entry per page number `1..N` (its key
list is a permutation of `1..N`, hence no missing and no extra keys). -/
theorem C1_run_aggregate_invariant (env : RunEnv) (pdfPath : String)
    (maxWorkers : Nat) (order : List (Nat × String)) (fs : FS) (tmp : TempFS)
    (hex : env.split.pdfExists = true) (hfail : env.split.failAt = none)
    (hN : 1 ≤ env.split.totalPages) (hmw : maxWorkers ≠ 0)
    (hperm : order.Perm (pagesOf env.split.totalPages))
    (hws : ∀ p, resultWellShaped (workerResult env.client p) = true) :
    ∃ rr, (process_pdf_by_pages env pdfPath maxWorkers order fs tmp).1 =
        .ok (.done rr) ∧
      rr.total_pages = env.split.totalPages ∧
      rr.successful_pages + rr.failed_pages = rr.total_pages ∧
      (rr.results.map Prod.fst).Perm (List.range' 1 env.split.totalPages) := by
  refine ⟨_, run_characterization env pdfPath maxWorkers order fs tmp
    hex hfail hN hmw hperm hws, rfl, ?_, ?_⟩
  · have hlen : order.length = env.split.totalPages := by
      rw [hperm.length_eq, pagesOf_length]
    have := countP_add_countP_not
      (fun pr => hasKeyO "error" (workerResult env.client pr.1)) order
    simp only []
    omega
  · have hmapfst : (order.map
        (fun pr => (pr.1, workerResult env.client pr.1))).map Prod.fst =
        order.map Prod.fst := by
      rw [List.map_map]
      exact List.map_congr_left (fun a _ => rfl)
    simp only [hmapfst]
    have := hperm.map Prod.fst
    rwa [pagesOf_fst] at this

/-- C1 witness: a two-page run collected out of submission order, one page
succeeding and one raising, via `C1_run_aggregate_invariant`. -/
theorem C1_run_aggregate_invariant_witness :
    ∃ rr, (process_pdf_by_pages
        ⟨"ts", "dn", "iso", ⟨true, 2, none⟩,
          fun p => if p = 1 then .ok [("products", Json.arr [])]
            else .error "API request failed"⟩
        "cat.pdf" 2 [(2, tempName 1), (1, tempName 0)] emptyFS noTemps).1 =
        .ok (.done rr) ∧
      rr.total_pages = 2 ∧
      rr.successful_pages + rr.failed_pages = rr.total_pages ∧
      (rr.results.map Prod.fst).Perm (List.range' 1 2) := by
  exact C1_run_aggregate_invariant
    ⟨"ts", "dn", "iso", ⟨true, 2, none⟩,
      fun p => if p = 1 then .ok [("products", Json.arr [])]
        else .error "API request failed"⟩
    "cat.pdf" 2 [(2, tempName 1), (1, tempName 0)] emptyFS noTemps
    rfl rfl (by decide) (by decide) (by decide)
    (by
      intro p
      by_cases h : p = 1
      · subst h; decide
      · unfold workerResult
        simp only [h, if_false]
        decide)

/-- C2, counterexample: a page whose extraction succeeds with a payload
that happens to contain an `"error"` key alongside `"products"` is
classified and persisted as a failure — `failed_pages = 1`,
`successful_pages = 0` — because the dispatcher classifies by the
presence of the `"error"` key, not by a variant tag. -/
theorem C2_counterexample :
    runCounters (process_pdf_by_pages
      ⟨"ts", "dn", "iso", ⟨true, 1, none⟩,
        fun _ => .ok [("products", Json.arr []), ("error", Json.str "boom")]⟩
      "cat.pdf" 2 [(1, tempName 0)] emptyFS noTemps) = some (1, 0, 1) := rfl

/-- C2, amended: the code represents a page outcome as a plain dict and
classifies success versus failure by the presence of the `"error"` key:
in every completed run, `failed_pages` counts exactly the results carrying
an `"error"` key and `successful_pages` the rest — so a successful
extraction whose payload contains an `"error"` key is classified (and
persisted) as a failure. -/
theorem C2_error_key_classification_amended (env : RunEnv) (pdfPath : String)
    (maxWorkers : Nat) (order : List (Nat × String)) (fs : FS) (tmp : TempFS)
    (hex : env.split.pdfExists = true) (hfail : env.split.failAt = none)
    (hN : 1 ≤ env.split.totalPages) (hmw : maxWorkers ≠ 0)
    (hperm : order.Perm (pagesOf env.split.totalPages))
    (hws : ∀ p, resultWellShaped (workerResult env.client p) = true) :
    ∃ rr, (process_pdf_by_pages env pdfPath maxWorkers order fs tmp).1 =
        .ok (.done rr) ∧
      rr.failed_pages =
        (rr.results.filter (fun pr => hasKeyO "error" pr.2)).length ∧
      rr.successful_pages =
        (rr.results.filter (fun pr => !hasKeyO "error" pr.2)).length := by
  refine ⟨_, run_characterization env pdfPath maxWorkers order fs tmp
    hex hfail hN hmw hperm hws, ?_, ?_⟩
  · rw [← List.countP_eq_length_filter, List.countP_map]
    rfl
  · rw [← List.countP_eq_length_filter, List.countP_map]
    rfl

/-- C2 amended witness: the one-page run of the counterexample, where the
single result carries an `"error"` key and is counted failed. -/
theorem C2_error_key_classification_amended_witness :
    ∃ rr, (process_pdf_by_pages
        ⟨"ts", "dn", "iso", ⟨true, 1, none⟩,
          fun _ => .ok [("products", Json.arr []), ("error", Json.str "boom")]⟩
        "cat.pdf" 2 [(1, tempName 0)] emptyFS noTemps).1 = .ok (.done rr) ∧
      rr.failed_pages =
        (rr.results.filter (fun pr => hasKeyO "error" pr.2)).length ∧
      rr.successful_pages =
        (rr.results.filter (fun pr => !hasKeyO "error" pr.2)).length :=
  C2_error_key_classification_amended
    ⟨"ts", "dn", "iso", ⟨true, 1, none⟩,
      fun _ => .ok [("products", Json.arr []), ("error", Json.str "boom")]⟩
    "cat.pdf" 2 [(1, tempName 0)] emptyFS noTemps
    rfl rfl (by decide) (by decide) (by decide)
    (by
      intro p
      exact (by decide : resultWellShaped
        [("products", Json.arr []), ("error", Json.str "boom")] = true))

/-- C6: when the split yields zero pages the run returns the explicit
empty-input marker immediately: no file is written (in particular no
counters, summary or combined report), no directory beyond the base
output directory is created (in particular no page subdirectory), and the
temporary store is untouched (no worker dispatched). -/
theorem C6_empty_input (env : RunEnv) (pdfPath : String) (maxWorkers : Nat)
    (order : List (Nat × String)) (fs : FS) (tmp : TempFS)
    (hex : env.split.pdfExists = true) (hfail : env.split.failAt = none)
    (h0 : env.split.totalPages = 0) :
    (process_pdf_by_pages env pdfPath maxWorkers order fs tmp).1 =
      .ok .noPages ∧
    (∀ q, (process_pdf_by_pages env pdfPath maxWorkers order fs tmp).2.1.files
        q = fs.files q) ∧
    (∀ q, (process_pdf_by_pages env pdfPath maxWorkers order fs tmp).2.1.dirs
        q = ((q == (create_output_directory env.timestamp
            (some (basenameOf pdfPath)) fs).1) || (q == "output") ||
          fs.dirs q)) ∧
    (process_pdf_by_pages env pdfPath maxWorkers order fs tmp).2.2 = tmp := by
  have hsplit : split_pdf_by_pages env.split tmp = (.ok [], tmp) := by
    unfold split_pdf_by_pages
    rw [hex, hfail, h0]
    simp [splitGo]
  unfold process_pdf_by_pages
  rw [hsplit]
  refine ⟨rfl, fun q => rfl, ?_, rfl⟩
  intro q
  exact create_output_dirs env.timestamp (some (basenameOf pdfPath)) fs q

/-- C6 witness: a zero-page source returns the empty marker; the page-1
subdirectory does not exist afterwards. -/
theorem C6_empty_input_witness :
    (process_pdf_by_pages ⟨"ts", "dn", "iso", ⟨true, 0, none⟩,
        fun _ => .error "x"⟩ "cat.pdf" 4 [] emptyFS noTemps).1 =
      .ok .noPages ∧
    (process_pdf_by_pages ⟨"ts", "dn", "iso", ⟨true, 0, none⟩,
        fun _ => .error "x"⟩ "cat.pdf" 4 [] emptyFS noTemps).2.1.dirs
      (pageDirPath "output/ts-cat" 1) = false := by
  obtain ⟨h1, _, h3, _⟩ := C6_empty_input
    ⟨"ts", "dn", "iso", ⟨true, 0, none⟩, fun _ => .error "x"⟩
    "cat.pdf" 4 [] emptyFS noTemps rfl rfl rfl
  exact ⟨h1, (h3 (pageDirPath "output/ts-cat" 1)).trans (by decide)⟩

/-- C10, counterexample: an HTTP 2xx body with the `data` and
`extracted_schema` keys whose extracted value is `{"error": "remote"}` —
it lacks `"products"`, `process_document` returns it without complaint,
but the page is counted as failed (`successful_pages = 0`), not as a
successful zero-product page as the claim states. -/
theorem C10_counterexample :
    process_document true ⟨true, .ok (Json.obj [("data", Json.obj
        [("extracted_schema", Json.obj [("error", Json.str "remote")])])])⟩ =
      .ok (Json.obj [("error", Json.str "remote")]) ∧
    runCounters (process_pdf_by_pages ⟨"ts", "dn", "iso", ⟨true, 1, none⟩,
        fun _ => .ok [("error", Json.str "remote")]⟩ "cat.pdf" 1
      [(1, tempName 0)] emptyFS noTemps) = some (1, 0, 1) := ⟨rfl, rfl⟩

/-- C10, amended: validation of the remote response stops at the envelope.
For every 2xx JSON body carrying `data.extracted_schema`, the extracted
object is returned as-is even when it lacks the `"products"` key; provided
it also lacks an `"error"` key (else it is conflated with a worker
failure), such a page is counted as successful and its summary reports
zero products. -/
theorem C10_envelope_validation_amended (bms dms ems : Obj)
    (hdata : getKey? bms "data" = some (.obj dms))
    (hes : getKey? dms "extracted_schema" = some (.obj ems))
    (hprod : hasKeyO "products" ems = false)
    (herr : hasKeyO "error" ems = false)
    (ts dn iso pdfPath : String) (maxWorkers : Nat) (hmw : maxWorkers ≠ 0) :
    process_document true ⟨true, .ok (.obj bms)⟩ = .ok (.obj ems) ∧
    summaryBody ems = .ok ("Number of products found: 0\n\n".data) ∧
    ∃ rr, (process_pdf_by_pages ⟨ts, dn, iso, ⟨true, 1, none⟩,
        fun _ => .ok ems⟩ pdfPath maxWorkers [(1, tempName 0)] emptyFS
        noTemps).1 = .ok (.done rr) ∧
      rr.successful_pages = 1 ∧ rr.failed_pages = 0 := by
  refine ⟨?_, ?_, ?_⟩
  · simp [process_document, getItem, hdata, hes, except_bind_ok]
  · unfold summaryBody
    rw [herr]
    simp only [Bool.false_eq_true, if_false, getD_of_no_key hprod]
    rfl
  · have hws : ∀ p, resultWellShaped
        (workerResult (fun _ => .ok ems) p) = true := by
      intro p
      exact noProducts_wellShaped hprod
    refine ⟨_, run_characterization
      ⟨ts, dn, iso, ⟨true, 1, none⟩, fun _ => .ok ems⟩ pdfPath maxWorkers
      [(1, tempName 0)] emptyFS noTemps rfl rfl (Nat.le_refl 1) hmw
      (List.Perm.refl _) hws, ?_, ?_⟩
    · simp [List.countP_cons, workerResult, herr]
    · simp [List.countP_cons, workerResult, herr]

/-- C10 amended witness: a concrete envelope whose extracted object is
`{"items": []}` (no `products`, no `error`), via
`C10_envelope_validation_amended`. -/
theorem C10_envelope_validation_amended_witness :
    process_document true ⟨true, .ok (.obj [("data", .obj
        [("extracted_schema", .obj [("items", Json.arr [])])])])⟩ =
      .ok (.obj [("items", Json.arr [])]) ∧
    summaryBody [("items", Json.arr [])] =
      .ok ("Number of products found: 0\n\n".data) ∧
    ∃ rr, (process_pdf_by_pages ⟨"ts", "dn", "iso", ⟨true, 1, none⟩,
        fun _ => .ok [("items", Json.arr [])]⟩ "cat.pdf" 1
        [(1, tempName 0)] emptyFS noTemps).1 = .ok (.done rr) ∧
      rr.successful_pages = 1 ∧ rr.failed_pages = 0 :=
  C10_envelope_validation_amended
    [("data", .obj [("extracted_schema", .obj [("items", Json.arr [])])])]
    [("extracted_schema", .obj [("items", Json.arr [])])]
    [("items", Json.arr [])] rfl rfl (by decide) (by decide)
    "ts" "dn" "iso" "cat.pdf" 1 (by decide)

/-! ## Deserialization: `json.load` — claim C9

A recursive-descent reader for the grammar `json.dump` emits (objects,
arrays, strings with `\uXXXX` escapes and surrogate pairs, integers,
literals), with whitespace skipping; mirrors `json.load` on such
documents.  `fuel` is a structural recursion budget, adequate whenever it
exceeds the value's `jsize`; `jsonLoad` passes the input length. -/

def isWsChar (c : Char) : Bool :=
  c = ' ' || c = '\t' || c = '\n' || c = '\r'

def skipWs : List Char → List Char
  | [] => []
  | c :: cs => if isWsChar c then skipWs cs else c :: cs

/-- Leading digit run and remainder. -/
def takeDigits : List Char → List Char × List Char
  | [] => ([], [])
  | c :: cs =>
    if c.isDigit then
      let p := takeDigits cs
      (c :: p.1, p.2)
    else ([], c :: cs)

/-- An integer literal: optional minus, then a nonempty digit run. -/
def parseNum (cs : List Char) : Option (Int × List Char) :=
  match cs with
  | [] => none
  | c :: rest =>
    if c = Char.ofNat 45 then
      match takeDigits rest with
      | ([], _) => none
      | (ds, r) => some (-(digitsToNat ds : Int), r)
    else
      match takeDigits (c :: rest) with
      | ([], _) => none
      | (ds, r) => some ((digitsToNat ds : Int), r)

def hexVal (c : Char) : Option Nat :=
  if '0' ≤ c ∧ c ≤ '9' then some (c.toNat - 48)
  else if 'a' ≤ c ∧ c ≤ 'f' then some (c.toNat - 87)
  else if 'A' ≤ c ∧ c ≤ 'F' then some (c.toNat - 55)
  else none

def parseHex4 : List Char → Option (Nat × List Char)
  | a :: b :: c :: d :: rest => do
      let x ← hexVal a
      let y ← hexVal b
      let z ← hexVal c
      let w ← hexVal d
      some (((x * 16 + y) * 16 + z) * 16 + w, rest)
  | _ => none

/-- The body of a string literal up to its closing quote, decoding the
escapes the encoder emits; a `\uXXXX` high surrogate must be followed by a
low surrogate (lone surrogates are outside the modelled value space). -/
def parseStringBody : Nat → List Char → Option (List Char × List Char)
  | 0, _ => none
  | fuel + 1, cs =>
    match cs with
    | [] => none
    | c :: rest =>
      if c = quoteChar then some ([], rest)
      else if c = backslashChar then
        match rest with
        | [] => none
        | e :: rest₁ =>
          if e = quoteChar then
            (parseStringBody fuel rest₁).map (fun p => (quoteChar :: p.1, p.2))
          else if e = backslashChar then
            (parseStringBody fuel rest₁).map
              (fun p => (backslashChar :: p.1, p.2))
          else if e = '/' then
            (parseStringBody fuel rest₁).map (fun p => ('/' :: p.1, p.2))
          else if e = 'n' then
            (parseStringBody fuel rest₁).map (fun p => ('\n' :: p.1, p.2))
          else if e = 't' then
            (parseStringBody fuel rest₁).map (fun p => ('\t' :: p.1, p.2))
          else if e = 'r' then
            (parseStringBody fuel rest₁).map (fun p => ('\r' :: p.1, p.2))
          else if e = 'b' then
            (parseStringBody fuel rest₁).map
              (fun p => (Char.ofNat 8 :: p.1, p.2))
          else if e = 'f' then
            (parseStringBody fuel rest₁).map
              (fun p => (Char.ofNat 12 :: p.1, p.2))
          else if e = 'u' then
            match parseHex4 rest₁ with
            | none => none
            | some (n, rest₂) =>
              if 55296 ≤ n ∧ n < 56320 then
                match rest₂ with
                | e₂ :: u₂ :: rest₃ =>
                  if e₂ = backslashChar ∧ u₂ = 'u' then
                    match parseHex4 rest₃ with
                    | some (m, rest₄) =>
                      if 56320 ≤ m ∧ m < 57344 then
                        (parseStringBody fuel rest₄).map (fun p =>
                          (Char.ofNat
                            (65536 + (n - 55296) * 1024 + (m - 56320)) ::
                            p.1, p.2))
                      else none
                    | none => none
                  else none
                | _ => none
              else if 56320 ≤ n ∧ n < 57344 then none
              else (parseStringBody fuel rest₂).map
                (fun p => (Char.ofNat n :: p.1, p.2))
          else none
      else (parseStringBody fuel rest).map (fun p => (c :: p.1, p.2))

mutual

/-- One JSON value, after optional whitespace. -/
def parseVal : Nat → List Char → Option (Json × List Char)
  | 0, _ => none
  | fuel + 1, cs =>
    match skipWs cs with
    | [] => none
    | c :: rest =>
      if c = 'n' then
        match rest with
        | a :: b :: d :: r =>
          if a = 'u' ∧ b = 'l' ∧ d = 'l' then some (.null, r) else none
        | _ => none
      else if c = 't' then
        match rest with
        | a :: b :: d :: r =>
          if a = 'r' ∧ b = 'u' ∧ d = 'e' then some (.bool true, r) else none
        | _ => none
      else if c = 'f' then
        match rest with
        | a :: b :: d :: e :: r =>
          if a = 'a' ∧ b = 'l' ∧ d = 's' ∧ e = 'e' then
            some (.bool false, r)
          else none
        | _ => none
      else if c = quoteChar then
        match parseStringBody fuel rest with
        | some (s, r) => some (.str ⟨s⟩, r)
        | none => none
      else if c = '[' then
        match skipWs rest with
        | [] => none
        | d :: r =>
          if d = ']' then some (.arr [], r)
          else
            match parseItems fuel (d :: r) with
            | some (xs, r₂) => some (.arr xs, r₂)
            | none => none
      else if c = lbraceChar then
        match skipWs rest with
        | [] => none
        | d :: r =>
          if d = rbraceChar then some (.obj [], r)
          else
            match parseMembers fuel (d :: r) with
            | some (ms, r₂) => some (.obj ms, r₂)
            | none => none
      else
        match parseNum (c :: rest) with
        | some (n, r) => some (.num n, r)
        | none => none

/-- The comma-separated items of a nonempty array, up to `]`. -/
def parseItems : Nat → List Char → Option (List Json × List Char)
  | 0, _ => none
  | fuel + 1, cs =>
    match parseVal fuel cs with
    | none => none
    | some (v, rest) =>
      match skipWs rest with
      | [] => none
      | c :: r =>
        if c = ',' then
          match parseItems fuel r with
          | some (vs, r₂) => some (v :: vs, r₂)
          | none => none
        else if c = ']' then some ([v], r)
        else none

/-- The comma-separated members of a nonempty object, up to `}`. -/
def parseMembers : Nat → List Char → Option (List (String × Json) × List Char)
  | 0, _ => none
  | fuel + 1, cs =>
    match skipWs cs with
    | [] => none
    | c :: rest =>
      if c = quoteChar then
        match parseStringBody fuel rest with
        | none => none
        | some (k, rest₁) =>
          match skipWs rest₁ with
          | [] => none
          | d :: rest₂ =>
            if d = ':' then
              match parseVal fuel rest₂ with
              | none => none
              | some (v, rest₃) =>
                match skipWs rest₃ with
                | [] => none
                | e :: r =>
                  if e = ',' then
                    match parseMembers fuel r with
                    | some (ms, r₂) => some ((⟨k⟩, v) :: ms, r₂)
                    | none => none
                  else if e = rbraceChar then some ([(⟨k⟩, v)], r)
                  else none
            else none
      else none

end

/-- `json.load` of a whole document: one value, then only whitespace. -/
def jsonLoad (cs : List Char) : Option Json :=
  match parseVal (cs.length + 1) cs with
  | some (v, rest) => if skipWs rest = [] then some v else none
  | none => none

mutual

/-- Parser budget adequate for a value (used only in proofs). -/
def jsize : Json → Nat
  | .null => 1
  | .bool _ => 1
  | .num _ => 1
  | .str s => s.data.length + 2
  | .arr xs => 1 + jsizeItems xs
  | .obj ms => 1 + jsizeMembers ms

def jsizeItems : List Json → Nat
  | [] => 1
  | x :: xs => 1 + jsize x + jsizeItems xs

def jsizeMembers : List (String × Json) → Nat
  | [] => 1
  | (k, v) :: ms => 2 + k.data.length + jsize v + jsizeMembers ms

end

/-! ### Reader correctness over the encoder's output -/

theorem option_bind_some {α β : Type} (a : α) (f : α → Option β) :
    (bind (some a) f : Option β) = f a := rfl

/-- The remainder does not begin with a digit (so a digit run before it is
maximal). -/
def noDigitHead : List Char → Bool
  | [] => true
  | c :: _ => !c.isDigit

theorem skipWs_cons_not {c : Char} (h : isWsChar c = false) (l : List Char) :
    skipWs (c :: l) = c :: l := by
  simp [skipWs, h]

theorem skipWs_app : ∀ {ws : List Char}, (∀ c ∈ ws, isWsChar c = true) →
    ∀ l, skipWs (ws ++ l) = skipWs l := by
  intro ws
  induction ws with
  | nil => intro _ l; rfl
  | cons c cs ih =>
    intro h l
    rw [List.cons_append, skipWs, if_pos (h c (by simp))]
    exact ih (fun d hd => h d (by simp [hd])) l

theorem padding_ws (n : Nat) : ∀ c ∈ padding n, isWsChar c = true := by
  intro c hc
  rw [padding] at hc
  rw [List.eq_of_mem_replicate hc]
  decide

theorem char_toNat_ne {a b : Char} (h : a.toNat ≠ b.toNat) : a ≠ b :=
  fun hc => h (congrArg Char.toNat hc)

theorem isDigit_toNat {c : Char} (h : c.isDigit = true) :
    48 ≤ c.toNat ∧ c.toNat ≤ 57 := by
  simp only [Char.isDigit, Bool.and_eq_true, decide_eq_true_eq] at h
  obtain ⟨h1, h2⟩ := h
  exact ⟨h1, h2⟩

theorem takeDigits_split : ∀ (ds rest : List Char),
    (∀ c ∈ ds, c.isDigit = true) → noDigitHead rest = true →
    takeDigits (ds ++ rest) = (ds, rest) := by
  intro ds
  induction ds with
  | nil =>
    intro rest _ h
    cases rest with
    | nil => rfl
    | cons c r =>
      rw [noDigitHead, Bool.not_eq_true'] at h
      simp [takeDigits, h]
  | cons d ds ih =>
    intro rest hds h
    rw [List.cons_append, takeDigits]
    rw [if_pos (hds d (by simp))]
    rw [ih rest (fun c hc => hds c (by simp [hc])) h]

theorem parseNum_intToChars (i : Int) (rest : List Char)
    (h : noDigitHead rest = true) :
    parseNum (intToChars i ++ rest) = some (i, rest) := by
  by_cases hneg : i < 0
  · rw [intToChars, if_pos hneg]
    obtain ⟨c, t, hct⟩ :=
      List.exists_cons_of_ne_nil (natToChars_ne_nil i.natAbs)
    rw [List.cons_append, parseNum, if_pos rfl,
      takeDigits_split (natToChars i.natAbs) rest (natToChars_digits _) h,
      hct]
    simp only []
    rw [← hct, digitsToNat_natToChars]
    have : -((i.natAbs : Nat) : Int) = i := by omega
    rw [this]
  · rw [intToChars, if_neg hneg]
    obtain ⟨c, t, hct⟩ :=
      List.exists_cons_of_ne_nil (natToChars_ne_nil i.toNat)
    have hdig : c.isDigit = true := natToChars_digits i.toNat c (by rw [hct]; simp)
    have hne : ¬ c = Char.ofNat 45 := by
      apply char_toNat_ne
      have := isDigit_toNat hdig
      have h45 : (Char.ofNat 45).toNat = 45 := rfl
      omega
    have hsplit : takeDigits (natToChars i.toNat ++ rest) =
        (natToChars i.toNat, rest) :=
      takeDigits_split _ rest (natToChars_digits _) h
    rw [hct] at hsplit ⊢
    rw [List.cons_append, parseNum, if_neg hne, ← List.cons_append, hsplit]
    simp only []
    rw [← hct, digitsToNat_natToChars]
    have : ((i.toNat : Nat) : Int) = i := by omega
    rw [this]

theorem hexVal_hexDigitChar {d : Nat} (h : d < 16) :
    hexVal (hexDigitChar d) = some d := by
  interval_cases d <;> decide

theorem parseHex4_hex4 {n : Nat} (h : n < 65536) (rest : List Char) :
    parseHex4 (hex4 n ++ rest) = some (n, rest) := by
  rw [hex4]
  simp only [List.cons_append, List.nil_append]
  rw [parseHex4]
  rw [hexVal_hexDigitChar (by omega), hexVal_hexDigitChar (by omega),
    hexVal_hexDigitChar (by omega), hexVal_hexDigitChar (by omega)]
  simp only [option_bind_some]
  congr 2
  omega

theorem char_scalar_range (c : Char) :
    c.toNat < 55296 ∨ (57343 < c.toNat ∧ c.toNat < 1114112) := by
  have h := c.valid
  simp only [UInt32.isValidChar, Nat.isValidChar] at h
  have he : c.toNat = c.val.toNat := rfl
  rw [he]
  rcases h with h | h
  · exact Or.inl h
  · exact Or.inr (by omega)

/-- Reading one escaped surrogate pair from the string body. -/
theorem parseStringBody_surrogate (f n m : Nat) (tail : List Char)
    (hn : n < 65536) (hm : m < 65536)
    (h1 : 55296 <= n) (h2 : n < 56320)
    (h3 : 56320 <= m) (h4 : m < 57344) :
    parseStringBody (f + 1)
      (backslashChar :: 'u' :: (hex4 n ++
        (backslashChar :: 'u' :: (hex4 m ++ tail)))) =
      (parseStringBody f tail).map (fun p =>
        (Char.ofNat (65536 + (n - 55296) * 1024 + (m - 56320)) ::
          p.1, p.2)) := by
  simp +decide [parseStringBody, parseHex4_hex4 hn, parseHex4_hex4 hm,
    h1, h2, h3, h4]

/-- Reading back an escaped string body: the reader recovers exactly the
original characters and stops at the closing quote. -/
theorem parseStringBody_escape : ∀ (s : List Char) (fuel : Nat)
    (rest : List Char), s.length + 1 ≤ fuel →
    parseStringBody fuel (escapeString s ++ quoteChar :: rest) =
      some (s, rest) := by
  intro s
  induction s with
  | nil =>
    intro fuel rest hf
    cases fuel with
    | zero => omega
    | succ f =>
      rw [escapeString, List.nil_append]
      simp +decide [parseStringBody]
  | cons c cs ih =>
    intro fuel rest hf
    cases fuel with
    | zero => simp at hf
    | succ f =>
      have hf' : cs.length + 1 ≤ f := by
        simp only [List.length_cons] at hf
        omega
      have hih := ih f rest hf'
      rw [escapeString, List.append_assoc]
      by_cases h1 : c = quoteChar
      · have he : escapeChar c = [backslashChar, quoteChar] := by
          rw [escapeChar, if_pos h1]
        rw [he]
        simp +decide [parseStringBody, hih, h1]
      · by_cases h2 : c = backslashChar
        · have he : escapeChar c = [backslashChar, backslashChar] := by
            rw [escapeChar, if_neg h1, if_pos h2]
          rw [he]
          simp +decide [parseStringBody, hih, h2]
        · by_cases h3 : c = '\n'
          · have he : escapeChar c = [backslashChar, 'n'] := by
              rw [escapeChar, if_neg h1, if_neg h2, if_pos h3]
            rw [he]
            simp +decide [parseStringBody, hih, h3]
          · by_cases h4 : c = '\t'
            · have he : escapeChar c = [backslashChar, 't'] := by
                rw [escapeChar, if_neg h1, if_neg h2, if_neg h3, if_pos h4]
              rw [he]
              simp +decide [parseStringBody, hih, h4]
            · by_cases h5 : c = '\r'
              · have he : escapeChar c = [backslashChar, 'r'] := by
                  rw [escapeChar, if_neg h1, if_neg h2, if_neg h3, if_neg h4,
                    if_pos h5]
                rw [he]
                simp +decide [parseStringBody, hih, h5]
              · by_cases h6 : c.toNat = 8
                · have he : escapeChar c = [backslashChar, 'b'] := by
                    rw [escapeChar, if_neg h1, if_neg h2, if_neg h3, if_neg h4,
                      if_neg h5, if_pos h6]
                  have hc : Char.ofNat 8 = c := by
                    rw [← h6, Char.ofNat_toNat]
                  rw [he]
                  simp +decide [parseStringBody, hih]
                  exact hc
                · by_cases h7 : c.toNat = 12
                  · have he : escapeChar c = [backslashChar, 'f'] := by
                      rw [escapeChar, if_neg h1, if_neg h2, if_neg h3,
                        if_neg h4, if_neg h5, if_neg h6, if_pos h7]
                    have hc : Char.ofNat 12 = c := by
                      rw [← h7, Char.ofNat_toNat]
                    rw [he]
                    simp +decide [parseStringBody, hih]
                    exact hc
                  · by_cases h8 : 32 ≤ c.toNat ∧ c.toNat ≤ 126
                    · have he : escapeChar c = [c] := by
                        rw [escapeChar, if_neg h1, if_neg h2, if_neg h3,
                          if_neg h4, if_neg h5, if_neg h6, if_neg h7,
                          if_pos h8]
                      rw [he]
                      simp +decide [parseStringBody, hih, h1, h2]
                    · by_cases h9 : c.toNat < 65536
                      · have he : escapeChar c =
                            backslashChar :: 'u' :: hex4 c.toNat := by
                          rw [escapeChar, if_neg h1, if_neg h2, if_neg h3,
                            if_neg h4, if_neg h5, if_neg h6, if_neg h7,
                            if_neg h8, if_pos h9]
                        have hrange := char_scalar_range c
                        have hns1 : ¬ (55296 ≤ c.toNat ∧ c.toNat < 56320) := by
                          omega
                        have hns2 : ¬ (56320 ≤ c.toNat ∧ c.toNat < 57344) := by
                          omega
                        rw [he]
                        simp only [List.cons_append]
                        simp +decide [parseStringBody, parseHex4_hex4 h9,
                          hns1, hns2, hih, Char.ofNat_toNat]
                      · have he : escapeChar c =
                            backslashChar :: 'u' ::
                              hex4 (55296 + (c.toNat - 65536) / 1024) ++
                            backslashChar :: 'u' ::
                              hex4 (56320 + (c.toNat - 65536) % 1024) := by
                          rw [escapeChar, if_neg h1, if_neg h2, if_neg h3,
                            if_neg h4, if_neg h5, if_neg h6, if_neg h7,
                            if_neg h8, if_neg h9]
                        have hrange := char_scalar_range c
                        have hhi : 55296 + (c.toNat - 65536) / 1024 < 65536 := by
                          omega
                        have hlo : 56320 + (c.toNat - 65536) % 1024 < 65536 := by
                          omega
                        have hs1 : 55296 ≤ 55296 + (c.toNat - 65536) / 1024 ∧
                            55296 + (c.toNat - 65536) / 1024 < 56320 := by
                          omega
                        have hs2 : 56320 ≤ 56320 + (c.toNat - 65536) % 1024 ∧
                            56320 + (c.toNat - 65536) % 1024 < 57344 := by
                          omega
                        have harg : 65536 +
                            (55296 + (c.toNat - 65536) / 1024 - 55296) * 1024 +
                            (56320 + (c.toNat - 65536) % 1024 - 56320) =
                            c.toNat := by
                          omega
                        rw [he]
                        simp only [List.cons_append, List.append_assoc]
                        rw [parseStringBody_surrogate _ _ _ _ hhi hlo
                          hs1.1 hs1.2 hs2.1 hs2.2, hih]
                        simp only [Option.map_some']
                        have hchar : Char.ofNat (65536 +
                            (55296 + (c.toNat - 65536) / 1024 - 55296) * 1024 +
                            (56320 + (c.toNat - 65536) % 1024 - 56320)) =
                            c := by
                          have hdm := Nat.div_add_mod (c.toNat - 65536) 1024
                          have hx : 65536 +
                              (55296 + (c.toNat - 65536) / 1024 - 55296) *
                                1024 +
                              (56320 + (c.toNat - 65536) % 1024 - 56320) =
                              c.toNat := by omega
                          rw [hx, Char.ofNat_toNat]
                        rw [hchar]


/-! ### Budget and head-shape lemmas for the round-trip proof -/

theorem one_le_escapeChar_length (c : Char) : 1 ≤ (escapeChar c).length := by
  rw [escapeChar]
  split_ifs <;> simp [hex4]

theorem le_escapeString_length :
    ∀ s : List Char, s.length ≤ (escapeString s).length := by
  intro s
  induction s with
  | nil => simp [escapeString]
  | cons c cs ih =>
    have h := one_le_escapeChar_length c
    simp only [escapeString, List.length_cons, List.length_append]
    omega

theorem intToChars_head (i : Int) : ∃ c t, intToChars i = c :: t ∧
    (c.toNat = 45 ∨ (48 ≤ c.toNat ∧ c.toNat ≤ 57)) := by
  rw [intToChars]
  by_cases h : i < 0
  · rw [if_pos h]
    exact ⟨Char.ofNat 45, natToChars i.natAbs, rfl, Or.inl rfl⟩
  · rw [if_neg h]
    obtain ⟨c, t, hct⟩ :=
      List.exists_cons_of_ne_nil (natToChars_ne_nil i.toNat)
    have hd : c.isDigit = true :=
      natToChars_digits i.toNat c (by rw [hct]; simp)
    exact ⟨c, t, hct, Or.inr (isDigit_toNat hd)⟩

theorem one_le_jsize (v : Json) : 1 ≤ jsize v := by
  cases v <;> simp [jsize]

theorem one_le_jsizeItems (xs : List Json) : 1 ≤ jsizeItems xs := by
  cases xs <;> simp [jsizeItems] <;> omega

theorem one_le_jsizeMembers (ms : List (String × Json)) :
    1 ≤ jsizeMembers ms := by
  rcases ms with _ | ⟨⟨k, v⟩, ms⟩ <;> simp [jsizeMembers] <;> omega

mutual

theorem jsize_le_dumpVal : ∀ (v : Json) (lvl : Nat),
    jsize v ≤ (dumpVal v lvl).length
  | .null, _ => by simp [jsize, dumpVal]
  | .bool b, _ => by cases b <;> simp [jsize, dumpVal]
  | .num n, _ => by
      obtain ⟨c, t, hct, _⟩ := intToChars_head n
      simp [jsize, dumpVal, hct]
  | .str s, _ => by
      have h := le_escapeString_length s.data
      have h0 : s.length = s.data.length := rfl
      simp [jsize, dumpVal, dumpString]
      omega
  | .arr [], _ => by simp [jsize, dumpVal, jsizeItems]
  | .arr (x :: xs), lvl => by
      have h1 := jsize_le_dumpVal x (lvl + 1)
      have h2 := jsizeItems_le_dumpSepItems xs (lvl + 1)
      simp [jsize, dumpVal, jsizeItems, List.length_append]
      omega
  | .obj [], _ => by simp [jsize, dumpVal, jsizeMembers]
  | .obj ((k, v) :: ms), lvl => by
      have h1 := jsize_le_dumpVal v (lvl + 1)
      have h2 := jsizeMembers_le_dumpSepMembers ms (lvl + 1)
      have h3 := le_escapeString_length k.data
      have h4 : k.length = k.data.length := rfl
      simp [jsize, dumpVal, jsizeMembers, dumpString, List.length_append]
      omega

theorem jsizeItems_le_dumpSepItems : ∀ (xs : List Json) (lvl : Nat),
    jsizeItems xs ≤ (dumpSepItems xs lvl).length + 1
  | [], _ => by simp [jsizeItems, dumpSepItems]
  | x :: xs, lvl => by
      have h1 := jsize_le_dumpVal x lvl
      have h2 := jsizeItems_le_dumpSepItems xs lvl
      simp [jsizeItems, dumpSepItems, List.length_append]
      omega

theorem jsizeMembers_le_dumpSepMembers : ∀ (ms : List (String × Json))
    (lvl : Nat), jsizeMembers ms ≤ (dumpSepMembers ms lvl).length + 1
  | [], _ => by simp [jsizeMembers, dumpSepMembers]
  | (k, v) :: ms, lvl => by
      have h1 := jsize_le_dumpVal v lvl
      have h2 := jsizeMembers_le_dumpSepMembers ms lvl
      have h3 := le_escapeString_length k.data
      have h4 : k.length = k.data.length := rfl
      simp [jsizeMembers, dumpSepMembers, dumpString, List.length_append]
      omega

end

theorem isWsChar_false_of_toNat {c : Char} (h32 : c.toNat ≠ 32)
    (h9 : c.toNat ≠ 9) (h10 : c.toNat ≠ 10) (h13 : c.toNat ≠ 13) :
    isWsChar c = false := by
  rw [isWsChar]
  simp only [Bool.or_eq_false_iff, decide_eq_false_iff_not]
  exact ⟨⟨⟨fun he => h32 (congrArg Char.toNat he),
    fun he => h9 (congrArg Char.toNat he)⟩,
    fun he => h10 (congrArg Char.toNat he)⟩,
    fun he => h13 (congrArg Char.toNat he)⟩

theorem dumpVal_head (v : Json) (lvl : Nat) : ∃ c t,
    dumpVal v lvl = c :: t ∧ isWsChar c = false ∧ ¬ c = ']' := by
  cases v with
  | null => exact ⟨'n', _, rfl, by decide, by decide⟩
  | bool b =>
    cases b with
    | true => exact ⟨'t', _, rfl, by decide, by decide⟩
    | false => exact ⟨'f', _, rfl, by decide, by decide⟩
  | num n =>
    obtain ⟨c, t, hct, hc⟩ := intToChars_head n
    refine ⟨c, t, hct, ?_, ?_⟩
    · exact isWsChar_false_of_toNat (by omega) (by omega) (by omega) (by omega)
    · apply char_toNat_ne
      have h93 : (']').toNat = 93 := rfl
      omega
  | str s => exact ⟨quoteChar, _, rfl, by decide, by decide⟩
  | arr xs =>
    cases xs with
    | nil => exact ⟨'[', _, rfl, by decide, by decide⟩
    | cons x xs => exact ⟨'[', _, rfl, by decide, by decide⟩
  | obj ms =>
    rcases ms with _ | ⟨⟨k, mv⟩, ms⟩
    · exact ⟨lbraceChar, _, rfl, by decide, by decide⟩
    · exact ⟨lbraceChar, _, rfl, by decide, by decide⟩

theorem noDigitHead_sepItems (xs : List Json) (lvl : Nat) (T : List Char) :
    noDigitHead (dumpSepItems xs lvl ++ '\n' :: T) = true := by
  cases xs <;> simp +decide [dumpSepItems, noDigitHead]

theorem noDigitHead_sepMembers (ms : List (String × Json)) (lvl : Nat)
    (T : List Char) :
    noDigitHead (dumpSepMembers ms lvl ++ '\n' :: T) = true := by
  rcases ms with _ | ⟨⟨k, v⟩, ms⟩ <;>
    simp +decide [dumpSepMembers, noDigitHead]

theorem parseVal_dump_null (f lvl : Nat) (ws rest : List Char)
    (hws : ∀ c ∈ ws, isWsChar c = true) :
    parseVal (f + 1) (ws ++ dumpVal .null lvl ++ rest) =
      some (.null, rest) := by
  have h1 : dumpVal Json.null lvl = 'n' :: ['u', 'l', 'l'] := rfl
  rw [h1, List.append_assoc, List.cons_append, parseVal, skipWs_app hws,
    skipWs_cons_not (by decide)]
  simp +decide [List.cons_append]

theorem parseVal_dump_true (f lvl : Nat) (ws rest : List Char)
    (hws : ∀ c ∈ ws, isWsChar c = true) :
    parseVal (f + 1) (ws ++ dumpVal (.bool true) lvl ++ rest) =
      some (.bool true, rest) := by
  have h1 : dumpVal (Json.bool true) lvl = 't' :: ['r', 'u', 'e'] := rfl
  rw [h1, List.append_assoc, List.cons_append, parseVal, skipWs_app hws,
    skipWs_cons_not (by decide)]
  simp +decide [List.cons_append]

theorem parseVal_dump_false (f lvl : Nat) (ws rest : List Char)
    (hws : ∀ c ∈ ws, isWsChar c = true) :
    parseVal (f + 1) (ws ++ dumpVal (.bool false) lvl ++ rest) =
      some (.bool false, rest) := by
  have h1 : dumpVal (Json.bool false) lvl = 'f' :: ['a', 'l', 's', 'e'] := rfl
  rw [h1, List.append_assoc, List.cons_append, parseVal, skipWs_app hws,
    skipWs_cons_not (by decide)]
  simp +decide [List.cons_append]

theorem parseVal_dump_num (f : Nat) (n : Int) (lvl : Nat) (ws rest : List Char)
    (hws : ∀ c ∈ ws, isWsChar c = true) (hrest : noDigitHead rest = true) :
    parseVal (f + 1) (ws ++ dumpVal (.num n) lvl ++ rest) =
      some (.num n, rest) := by
  obtain ⟨c, t, hct, hc⟩ := intToChars_head n
  have hcw : isWsChar c = false :=
    isWsChar_false_of_toNat (by omega) (by omega) (by omega) (by omega)
  have hn : ¬ c = 'n' := char_toNat_ne (by
    have h : ('n').toNat = 110 := rfl
    omega)
  have ht : ¬ c = 't' := char_toNat_ne (by
    have h : ('t').toNat = 116 := rfl
    omega)
  have hf : ¬ c = 'f' := char_toNat_ne (by
    have h : ('f').toNat = 102 := rfl
    omega)
  have hq : ¬ c = quoteChar := char_toNat_ne (by
    have h : quoteChar.toNat = 34 := rfl
    omega)
  have hlb : ¬ c = '[' := char_toNat_ne (by
    have h : ('[').toNat = 91 := rfl
    omega)
  have hob : ¬ c = lbraceChar := char_toNat_ne (by
    have h : lbraceChar.toNat = 123 := rfl
    omega)
  have hpn : parseNum (c :: (t ++ rest)) = some (n, rest) := by
    rw [← List.cons_append, ← hct]
    exact parseNum_intToChars n rest hrest
  have h1 : dumpVal (Json.num n) lvl = c :: t := hct
  rw [h1, List.append_assoc, List.cons_append, parseVal, skipWs_app hws,
    skipWs_cons_not hcw]
  simp only [if_neg hn, if_neg ht, if_neg hf, if_neg hq, if_neg hlb,
    if_neg hob, hpn]

theorem parseVal_dump_str (f : Nat) (s : String) (lvl : Nat)
    (ws rest : List Char) (hws : ∀ c ∈ ws, isWsChar c = true)
    (hfuel : s.data.length + 1 ≤ f) :
    parseVal (f + 1) (ws ++ dumpVal (.str s) lvl ++ rest) =
      some (.str s, rest) := by
  have h1 : dumpVal (Json.str s) lvl =
      quoteChar :: (escapeString s.data ++ [quoteChar]) := rfl
  have h2 : (escapeString s.data ++ [quoteChar]) ++ rest =
      escapeString s.data ++ quoteChar :: rest := by
    simp
  have h3 := parseStringBody_escape s.data f rest hfuel
  rw [h1, List.append_assoc, List.cons_append, h2, parseVal,
    skipWs_app hws, skipWs_cons_not (by decide)]
  simp +decide [h3]

theorem parseVal_dump_arrNil (f lvl : Nat) (ws rest : List Char)
    (hws : ∀ c ∈ ws, isWsChar c = true) :
    parseVal (f + 1) (ws ++ dumpVal (.arr []) lvl ++ rest) =
      some (.arr [], rest) := by
  have h1 : dumpVal (Json.arr []) lvl = '[' :: [']'] := rfl
  rw [h1, List.append_assoc, List.cons_append, parseVal, skipWs_app hws,
    skipWs_cons_not (by decide)]
  simp +decide [List.cons_append, skipWs]

theorem parseVal_dump_objNil (f lvl : Nat) (ws rest : List Char)
    (hws : ∀ c ∈ ws, isWsChar c = true) :
    parseVal (f + 1) (ws ++ dumpVal (.obj []) lvl ++ rest) =
      some (.obj [], rest) := by
  have h1 : dumpVal (Json.obj []) lvl = lbraceChar :: [rbraceChar] := rfl
  rw [h1, List.append_assoc, List.cons_append, parseVal, skipWs_app hws,
    skipWs_cons_not (by decide)]
  simp +decide [List.cons_append, skipWs]

theorem parseVal_dump_arrCons (f : Nat) (x : Json) (xs : List Json)
    (lvl : Nat) (ws rest : List Char)
    (hws : ∀ c ∈ ws, isWsChar c = true)
    (hitems : parseItems f (dumpVal x (lvl + 1) ++ (dumpSepItems xs (lvl + 1)
      ++ ('\n' :: (padding (2 * lvl) ++ (']' :: rest))))) =
      some (x :: xs, rest)) :
    parseVal (f + 1) (ws ++ dumpVal (.arr (x :: xs)) lvl ++ rest) =
      some (.arr (x :: xs), rest) := by
  obtain ⟨c, t, hct, hcw, hcne⟩ := dumpVal_head x (lvl + 1)
  have h1 : dumpVal (Json.arr (x :: xs)) lvl ++ rest =
      '[' :: '\n' :: (padding (2 * (lvl + 1)) ++ (dumpVal x (lvl + 1) ++
        (dumpSepItems xs (lvl + 1) ++
          ('\n' :: (padding (2 * lvl) ++ (']' :: rest)))))) := by
    rw [dumpVal]
    simp [List.append_assoc]
  have h2 : skipWs ('\n' :: (padding (2 * (lvl + 1)) ++ (dumpVal x (lvl + 1)
      ++ (dumpSepItems xs (lvl + 1) ++
        ('\n' :: (padding (2 * lvl) ++ (']' :: rest))))))) =
      c :: (t ++ (dumpSepItems xs (lvl + 1) ++
        ('\n' :: (padding (2 * lvl) ++ (']' :: rest))))) := by
    rw [skipWs, if_pos (by decide), skipWs_app (padding_ws _), hct,
      List.cons_append, skipWs_cons_not hcw]
  have h3 : parseItems f (c :: (t ++ (dumpSepItems xs (lvl + 1) ++
      ('\n' :: (padding (2 * lvl) ++ (']' :: rest)))))) =
      some (x :: xs, rest) := by
    rw [← List.cons_append, ← hct]
    exact hitems
  rw [List.append_assoc, h1, parseVal, skipWs_app hws,
    skipWs_cons_not (by decide)]
  simp +decide [h2, h3, hcne]

theorem parseVal_dump_objCons (f : Nat) (k : String) (v : Json)
    (ms : List (String × Json)) (lvl : Nat) (ws rest : List Char)
    (hws : ∀ c ∈ ws, isWsChar c = true)
    (hmembers : parseMembers f (dumpString k ++ (':' :: ' ' ::
      (dumpVal v (lvl + 1) ++ (dumpSepMembers ms (lvl + 1) ++
        ('\n' :: (padding (2 * lvl) ++ (rbraceChar :: rest))))))) =
      some ((k, v) :: ms, rest)) :
    parseVal (f + 1) (ws ++ dumpVal (.obj ((k, v) :: ms)) lvl ++ rest) =
      some (.obj ((k, v) :: ms), rest) := by
  have hd : dumpString k ++ (':' :: ' ' :: (dumpVal v (lvl + 1) ++
      (dumpSepMembers ms (lvl + 1) ++
        ('\n' :: (padding (2 * lvl) ++ (rbraceChar :: rest)))))) =
      quoteChar :: (escapeString k.data ++ (quoteChar :: (':' :: ' ' ::
        (dumpVal v (lvl + 1) ++ (dumpSepMembers ms (lvl + 1) ++
          ('\n' :: (padding (2 * lvl) ++ (rbraceChar :: rest)))))))) := by
    simp [dumpString]
  have h1 : dumpVal (Json.obj ((k, v) :: ms)) lvl ++ rest =
      lbraceChar :: '\n' :: (padding (2 * (lvl + 1)) ++ (dumpString k ++
        (':' :: ' ' :: (dumpVal v (lvl + 1) ++ (dumpSepMembers ms (lvl + 1) ++
          ('\n' :: (padding (2 * lvl) ++ (rbraceChar :: rest)))))))) := by
    rw [dumpVal]
    simp [List.append_assoc, dumpString]
  have h2 : skipWs ('\n' :: (padding (2 * (lvl + 1)) ++ (dumpString k ++
      (':' :: ' ' :: (dumpVal v (lvl + 1) ++ (dumpSepMembers ms (lvl + 1) ++
        ('\n' :: (padding (2 * lvl) ++ (rbraceChar :: rest))))))))) =
      quoteChar :: (escapeString k.data ++ (quoteChar :: (':' :: ' ' ::
        (dumpVal v (lvl + 1) ++ (dumpSepMembers ms (lvl + 1) ++
          ('\n' :: (padding (2 * lvl) ++ (rbraceChar :: rest)))))))) := by
    rw [skipWs, if_pos (by decide), skipWs_app (padding_ws _), hd,
      skipWs_cons_not (by decide)]
  have h3 : parseMembers f (quoteChar :: (escapeString k.data ++
      (quoteChar :: (':' :: ' ' :: (dumpVal v (lvl + 1) ++
        (dumpSepMembers ms (lvl + 1) ++
          ('\n' :: (padding (2 * lvl) ++ (rbraceChar :: rest))))))))) =
      some ((k, v) :: ms, rest) := by
    rw [← hd]
    exact hmembers
  rw [List.append_assoc, h1, parseVal, skipWs_app hws,
    skipWs_cons_not (by decide)]
  simp +decide [h2, h3]

theorem nlPad_ws (n : Nat) : ∀ c ∈ ('\n' :: padding n), isWsChar c = true := by
  intro c hc
  rcases List.mem_cons.mp hc with h | h
  · subst h
    decide
  · exact padding_ws n c h

theorem parseItems_dump_cons (f : Nat) (x : Json) (xs' : List Json)
    (I U rest : List Char)
    (hval : parseVal f I = some (x, ',' :: U))
    (hrec : parseItems f U = some (xs', rest)) :
    parseItems (f + 1) I = some (x :: xs', rest) := by
  rw [parseItems, hval]
  simp +decide [skipWs, hrec]

theorem parseItems_dump_last (f : Nat) (x : Json) (p : Nat)
    (I rest : List Char)
    (hval : parseVal f I = some (x, '\n' :: (padding p ++ (']' :: rest)))) :
    parseItems (f + 1) I = some ([x], rest) := by
  rw [parseItems, hval]
  have hsk : skipWs ('\n' :: (padding p ++ (']' :: rest))) = ']' :: rest := by
    rw [skipWs, if_pos (by decide), skipWs_app (padding_ws _),
      skipWs_cons_not (by decide)]
  simp +decide [hsk]

theorem parseMembers_dump_cons (f : Nat) (k : String) (v : Json)
    (ms' : List (String × Json)) (lvl : Nat) (ws U rest : List Char)
    (hws : ∀ c ∈ ws, isWsChar c = true)
    (hkey : k.data.length + 1 ≤ f)
    (hval : parseVal f (' ' :: (dumpVal v lvl ++ (',' :: U))) =
      some (v, ',' :: U))
    (hrec : parseMembers f U = some (ms', rest)) :
    parseMembers (f + 1) (ws ++ (dumpString k ++ (':' :: ' ' ::
      (dumpVal v lvl ++ (',' :: U))))) = some ((k, v) :: ms', rest) := by
  have hd : dumpString k ++ (':' :: ' ' :: (dumpVal v lvl ++ (',' :: U))) =
      quoteChar :: (escapeString k.data ++ (quoteChar :: (':' :: ' ' ::
        (dumpVal v lvl ++ (',' :: U))))) := by
    simp [dumpString]
  have hsb := parseStringBody_escape k.data f
    (':' :: ' ' :: (dumpVal v lvl ++ (',' :: U))) hkey
  rw [parseMembers, skipWs_app hws, hd, skipWs_cons_not (by decide)]
  simp +decide [hsb, hval, hrec, skipWs]

theorem parseMembers_dump_last (f : Nat) (k : String) (v : Json)
    (lvl p : Nat) (ws rest : List Char)
    (hws : ∀ c ∈ ws, isWsChar c = true)
    (hkey : k.data.length + 1 ≤ f)
    (hval : parseVal f (' ' :: (dumpVal v lvl ++
      ('\n' :: (padding p ++ (rbraceChar :: rest))))) =
      some (v, '\n' :: (padding p ++ (rbraceChar :: rest)))) :
    parseMembers (f + 1) (ws ++ (dumpString k ++ (':' :: ' ' ::
      (dumpVal v lvl ++ ('\n' :: (padding p ++ (rbraceChar :: rest))))))) =
      some ([(k, v)], rest) := by
  have hd : dumpString k ++ (':' :: ' ' :: (dumpVal v lvl ++
      ('\n' :: (padding p ++ (rbraceChar :: rest))))) =
      quoteChar :: (escapeString k.data ++ (quoteChar :: (':' :: ' ' ::
        (dumpVal v lvl ++ ('\n' :: (padding p ++ (rbraceChar :: rest))))))) := by
    simp [dumpString]
  have hsb := parseStringBody_escape k.data f
    (':' :: ' ' :: (dumpVal v lvl ++
      ('\n' :: (padding p ++ (rbraceChar :: rest))))) hkey
  have hsk : skipWs ('\n' :: (padding p ++ (rbraceChar :: rest))) =
      rbraceChar :: rest := by
    rw [skipWs, if_pos (by decide), skipWs_app (padding_ws _),
      skipWs_cons_not (by decide)]
  rw [parseMembers, skipWs_app hws, hd, skipWs_cons_not (by decide)]
  simp +decide [hsb, hval, skipWs, skipWs_app (padding_ws p)]

theorem parse_dump (fuel : Nat) :
    (∀ (v : Json) (lvl : Nat) (ws rest : List Char),
      (∀ c ∈ ws, isWsChar c = true) → jsize v ≤ fuel →
      noDigitHead rest = true →
      parseVal fuel (ws ++ dumpVal v lvl ++ rest) = some (v, rest)) ∧
    (∀ (x : Json) (xs : List Json) (lvl p : Nat) (ws rest : List Char),
      (∀ c ∈ ws, isWsChar c = true) → jsizeItems (x :: xs) ≤ fuel →
      parseItems fuel (ws ++ (dumpVal x lvl ++ (dumpSepItems xs lvl ++
        ('\n' :: (padding p ++ (']' :: rest)))))) = some (x :: xs, rest)) ∧
    (∀ (k : String) (v : Json) (ms : List (String × Json)) (lvl p : Nat)
      (ws rest : List Char),
      (∀ c ∈ ws, isWsChar c = true) → jsizeMembers ((k, v) :: ms) ≤ fuel →
      parseMembers fuel (ws ++ (dumpString k ++ (':' :: ' ' ::
        (dumpVal v lvl ++ (dumpSepMembers ms lvl ++
          ('\n' :: (padding p ++ (rbraceChar :: rest)))))))) =
        some ((k, v) :: ms, rest)) := by
  induction fuel with
  | zero =>
    refine ⟨?_, ?_, ?_⟩
    · intro v lvl ws rest _ hsz _
      have := one_le_jsize v
      omega
    · intro x xs lvl p ws rest _ hsz
      have h1 := one_le_jsize x
      have h2 := one_le_jsizeItems xs
      rw [jsizeItems] at hsz
      omega
    · intro k v ms lvl p ws rest _ hsz
      have h1 := one_le_jsize v
      have h2 := one_le_jsizeMembers ms
      rw [jsizeMembers] at hsz
      omega
  | succ f ih =>
    obtain ⟨ihP, ihQ, ihR⟩ := ih
    refine ⟨?_, ?_, ?_⟩
    · intro v lvl ws rest hws hsz hrest
      cases v with
      | null => exact parseVal_dump_null f lvl ws rest hws
      | bool b =>
        cases b with
        | true => exact parseVal_dump_true f lvl ws rest hws
        | false => exact parseVal_dump_false f lvl ws rest hws
      | num n => exact parseVal_dump_num f n lvl ws rest hws hrest
      | str s =>
        refine parseVal_dump_str f s lvl ws rest hws ?_
        rw [jsize] at hsz
        omega
      | arr xs =>
        cases xs with
        | nil => exact parseVal_dump_arrNil f lvl ws rest hws
        | cons x xs =>
          refine parseVal_dump_arrCons f x xs lvl ws rest hws ?_
          have hb : jsizeItems (x :: xs) ≤ f := by
            rw [jsize] at hsz
            omega
          have h := ihQ x xs (lvl + 1) (2 * lvl) [] rest (by simp) hb
          simpa using h
      | obj ms =>
        rcases ms with _ | ⟨⟨k, v⟩, ms⟩
        · exact parseVal_dump_objNil f lvl ws rest hws
        · refine parseVal_dump_objCons f k v ms lvl ws rest hws ?_
          have hb : jsizeMembers ((k, v) :: ms) ≤ f := by
            rw [jsize] at hsz
            omega
          have h := ihR k v ms (lvl + 1) (2 * lvl) [] rest (by simp) hb
          simpa using h
    · intro x xs lvl p ws rest hws hsz
      rw [jsizeItems] at hsz
      cases xs with
      | nil =>
        have h0 : dumpSepItems ([] : List Json) lvl = [] := rfl
        rw [h0, List.nil_append]
        refine parseItems_dump_last f x p _ rest ?_
        have h := ihP x lvl ws ('\n' :: (padding p ++ (']' :: rest))) hws
          (by omega) rfl
        simpa using h
      | cons y ys =>
        have hbr : dumpSepItems (y :: ys) lvl ++
            ('\n' :: (padding p ++ (']' :: rest))) =
            ',' :: ('\n' :: (padding (2 * lvl) ++ (dumpVal y lvl ++
              (dumpSepItems ys lvl ++
                ('\n' :: (padding p ++ (']' :: rest))))))) := by
          rw [dumpSepItems]
          simp [List.append_assoc]
        rw [hbr]
        have h1 := one_le_jsize x
        have h2 := one_le_jsize y
        have h3 := one_le_jsizeItems ys
        rw [jsizeItems] at hsz
        refine parseItems_dump_cons f x (y :: ys) _
          ('\n' :: (padding (2 * lvl) ++ (dumpVal y lvl ++
            (dumpSepItems ys lvl ++
              ('\n' :: (padding p ++ (']' :: rest))))))) rest ?_ ?_
        · have h := ihP x lvl ws (',' :: ('\n' :: (padding (2 * lvl) ++
            (dumpVal y lvl ++ (dumpSepItems ys lvl ++
              ('\n' :: (padding p ++ (']' :: rest)))))))) hws (by omega) rfl
          simpa using h
        · have h := ihQ y ys lvl p ('\n' :: padding (2 * lvl)) rest
            (nlPad_ws _) (by rw [jsizeItems]; omega)
          simpa using h
    · intro k v ms lvl p ws rest hws hsz
      rw [jsizeMembers] at hsz
      have h1 := one_le_jsize v
      have h2 := one_le_jsizeMembers ms
      rcases ms with _ | ⟨⟨k2, v2⟩, ms2⟩
      · have h0 : dumpSepMembers ([] : List (String × Json)) lvl = [] := rfl
        rw [h0, List.nil_append]
        refine parseMembers_dump_last f k v lvl p ws rest hws (by omega) ?_
        have h := ihP v lvl [' '] ('\n' :: (padding p ++ (rbraceChar :: rest)))
          (by decide) (by omega) rfl
        simpa using h
      · have hbr : dumpSepMembers ((k2, v2) :: ms2) lvl ++
            ('\n' :: (padding p ++ (rbraceChar :: rest))) =
            ',' :: ('\n' :: (padding (2 * lvl) ++ (dumpString k2 ++
              (':' :: ' ' :: (dumpVal v2 lvl ++ (dumpSepMembers ms2 lvl ++
                ('\n' :: (padding p ++ (rbraceChar :: rest))))))))) := by
          rw [dumpSepMembers]
          simp [List.append_assoc, dumpString]
        rw [hbr]
        have h3 := one_le_jsize v2
        have h4 := one_le_jsizeMembers ms2
        have h5 : jsizeMembers ((k2, v2) :: ms2) ≥ 1 :=
          one_le_jsizeMembers _
        refine parseMembers_dump_cons f k v ((k2, v2) :: ms2) lvl ws
          ('\n' :: (padding (2 * lvl) ++ (dumpString k2 ++
            (':' :: ' ' :: (dumpVal v2 lvl ++ (dumpSepMembers ms2 lvl ++
              ('\n' :: (padding p ++ (rbraceChar :: rest))))))))) rest
          hws (by omega) ?_ ?_
        · have h := ihP v lvl [' '] (',' :: ('\n' :: (padding (2 * lvl) ++
            (dumpString k2 ++ (':' :: ' ' :: (dumpVal v2 lvl ++
              (dumpSepMembers ms2 lvl ++ ('\n' :: (padding p ++
                (rbraceChar :: rest)))))))))) (by decide) (by omega) rfl
          simpa using h
        · have h := ihR k2 v2 ms2 lvl p ('\n' :: padding (2 * lvl)) rest
            (nlPad_ws _) (by rw [jsizeMembers] at hsz ⊢; omega)
          simpa using h

/-- `json.load` inverts `json.dump` on every modelled value. -/
theorem jsonLoad_jsonDump (v : Json) : jsonLoad (jsonDump v) = some v := by
  have hb : jsize v ≤ (dumpVal v 0).length + 1 := by
    have := jsize_le_dumpVal v 0
    omega
  have h := (parse_dump ((dumpVal v 0).length + 1)).1 v 0 [] [] (by simp)
    hb rfl
  simp only [List.nil_append, List.append_nil] at h
  rw [jsonLoad, jsonDump, h]
  simp [skipWs]

/-- C9: write/read round-trip — saving a well-shaped PageResult succeeds,
the persisted `result.json` holds exactly the serialized result, and
re-reading that content deserializes to a value deep-equal to the original
result dict. -/
theorem C9_write_read_roundtrip (fs : FS) (outputDir : String) (n : Nat)
    (r : Obj) (hdir : fs.dirs outputDir = true)
    (hws : resultWellShaped r = true) :
    ∃ fs', save_page_result fs outputDir n r = .ok fs' ∧
      fs'.files (pageDirPath outputDir n ++ "/result.json") =
        some (jsonDump (Json.obj r)) ∧
      jsonLoad (jsonDump (Json.obj r)) = some (.obj r) := by
  obtain ⟨fs', body, hbody, hsave, hdirs, hfiles⟩ :=
    save_page_result_ok hdir hws
  refine ⟨fs', hsave, ?_, jsonLoad_jsonDump (Json.obj r)⟩
  rw [hfiles, if_neg (resultPath_ne_summaryPath (pageDirPath outputDir n))]
  simp

theorem C9_write_read_roundtrip_witness :
    ∃ fs', save_page_result ⟨fun q => q == "output/x", fun _ => none⟩
        "output/x" 2 [("products", Json.arr [])] = .ok fs' ∧
      fs'.files (pageDirPath "output/x" 2 ++ "/result.json") =
        some (jsonDump (Json.obj [("products", Json.arr [])])) ∧
      jsonLoad (jsonDump (Json.obj [("products", Json.arr [])])) =
        some (.obj [("products", Json.arr [])]) :=
  C9_write_read_roundtrip ⟨fun q => q == "output/x", fun _ => none⟩
    "output/x" 2 [("products", Json.arr [])] (by decide) (by decide)

end OcrSpec